import Mathlib

/-!
Verification of the environment-variable shim (miri `src/shims/env.rs`) and the
stable-hash derive generator (`rustc_macros/src/hash_stable.rs`) against their
natural-language specification.

Guest memory is embedded shallowly: an allocation is either a null-terminated
unit string (bytes on Unix targets, 16-bit units on Windows targets; the
equals sign is unit 61 and the terminator is unit 0 in both encodings) or an
array of pointers (the `environ` array).  Pointer offsets count units, so the
byte offset `(len + 1) * 2` of the wide-string code is unit offset `len + 1`
here, the same as in the single-byte case.
-/

/-- A guest pointer: an allocation identifier plus an offset (in units).
Identifier 0 is reserved for the null pointer. -/
structure Ptr where
  alloc : Nat
  offset : Nat
deriving DecidableEq

def Ptr.null : Ptr := ⟨0, 0⟩

def Ptr.isNull (p : Ptr) : Bool := p.alloc == 0

theorem Ptr.ne_null_of_alloc {p : Ptr} (h : p.alloc ≠ 0) : p ≠ Ptr.null := by
  intro he; exact h (by rw [he]; rfl)

theorem Ptr.isNull_false_of_alloc {p : Ptr} (h : p.alloc ≠ 0) : p.isNull = false := by
  simp [Ptr.isNull, h]

/-- Contents of one guest allocation. -/
inductive Alloc where
  /-- A string of units (single-byte C string or 16-bit wide string). -/
  | str : List Nat → Alloc
  /-- An array of pointers (the `environ` pointer array). -/
  | ptrs : List Ptr → Alloc
deriving DecidableEq

/-- Find the contents stored under identifier `i`. -/
def heapFind (i : Nat) : List (Nat × Alloc) → Option Alloc
  | [] => none
  | e :: rest => if e.1 = i then some e.2 else heapFind i rest

/-- Remove the first entry stored under identifier `i`. -/
def removeId (i : Nat) : List (Nat × Alloc) → List (Nat × Alloc)
  | [] => []
  | e :: rest => if e.1 = i then rest else e :: removeId i rest

/-- Replace the contents stored under identifier `i`. -/
def updateId (i : Nat) (a : Alloc) : List (Nat × Alloc) → List (Nat × Alloc)
  | [] => []
  | e :: rest => if e.1 = i then (i, a) :: rest else e :: updateId i a rest

/-- Guest memory: an association list from allocation identifiers to contents,
plus the next fresh identifier. -/
structure Mem where
  heap : List (Nat × Alloc)
  next : Nat
deriving DecidableEq

def Mem.empty : Mem := ⟨[], 1⟩

def Mem.lookup (m : Mem) (i : Nat) : Option Alloc := heapFind i m.heap

/-- Allocate fresh contents, returning the new pointer (offset 0). -/
def Mem.alloc (m : Mem) (a : Alloc) : Ptr × Mem :=
  (⟨m.next, 0⟩, ⟨(m.next, a) :: m.heap, m.next + 1⟩)

/-- Deallocation (`deallocate_ptr`): succeeds only on a live allocation at
offset 0. -/
def Mem.dealloc (m : Mem) (p : Ptr) : Option Mem :=
  if (m.lookup p.alloc).isSome ∧ p.offset = 0 then
    some ⟨removeId p.alloc m.heap, m.next⟩
  else none

/-- Take units up to (excluding) the first 0 terminator; fails when the
allocation ends before a terminator is found. -/
def takeUntilNull : List Nat → Option (List Nat)
  | [] => none
  | u :: rest => if u = 0 then some [] else (takeUntilNull rest).map (u :: ·)

/-- Interpret an allocation as a null-terminated string starting at `off`. -/
def strAt (off : Nat) : Option Alloc → Option (List Nat)
  | some (.str w) => takeUntilNull (w.drop off)
  | _ => none

/-- Read a null-terminated string starting at `p`
(`read_os_str_from_c_str` / `read_os_str_from_wide_str`). -/
def Mem.readStr (m : Mem) (p : Ptr) : Option (List Nat) :=
  strAt p.offset (m.lookup p.alloc)

/-- Overwrite `data.length` units starting at `p`; fails when `p` is not a
live string allocation large enough. -/
def Mem.writeUnits (m : Mem) (p : Ptr) (data : List Nat) : Option Mem :=
  match m.lookup p.alloc with
  | some (.str w) =>
      if p.offset + data.length ≤ w.length then
        some ⟨updateId p.alloc (.str (w.take p.offset ++ data ++ w.drop (p.offset + data.length))) m.heap, m.next⟩
      else none
  | _ => none

/-- Well-formedness of the heap: identifiers are distinct, positive, and below
the fresh counter. -/
structure MemWF (m : Mem) : Prop where
  nodup : (m.heap.map Prod.fst).Nodup
  bound : ∀ i ∈ m.heap.map Prod.fst, 0 < i ∧ i < m.next
  pos : 0 < m.next

theorem heapFind_mem {i : Nat} {l : List (Nat × Alloc)} {a : Alloc}
    (h : heapFind i l = some a) : i ∈ l.map Prod.fst := by
  induction l with
  | nil => simp [heapFind] at h
  | cons e rest ih =>
      unfold heapFind at h
      by_cases he : e.1 = i
      · exact List.mem_map.mpr ⟨e, List.mem_cons_self _ _, he⟩
      · rw [if_neg he] at h
        exact List.mem_cons_of_mem _ (ih h)

theorem heapFind_not_mem {i : Nat} {l : List (Nat × Alloc)}
    (h : i ∉ l.map Prod.fst) : heapFind i l = none := by
  cases hf : heapFind i l with
  | none => rfl
  | some a => exact absurd (heapFind_mem hf) h

theorem Mem.lookup_mem {m : Mem} {i : Nat} {a : Alloc} (h : m.lookup i = some a) :
    i ∈ m.heap.map Prod.fst := heapFind_mem h

theorem Mem.lookup_bound {m : Mem} (wf : MemWF m) {i : Nat} {a : Alloc}
    (h : m.lookup i = some a) : 0 < i ∧ i < m.next :=
  wf.bound i (Mem.lookup_mem h)

theorem Mem.lookup_next_none {m : Mem} (wf : MemWF m) : m.lookup m.next = none := by
  apply heapFind_not_mem
  intro hmem
  exact absurd (wf.bound _ hmem).2 (lt_irrefl _)

theorem Mem.lookup_alloc (m : Mem) (a : Alloc) (i : Nat) :
    (m.alloc a).2.lookup i = if i = m.next then some a else m.lookup i := by
  by_cases h : i = m.next
  · simp [Mem.alloc, Mem.lookup, heapFind, h]
  · have h2 : ¬ (m.next = i) := fun hh => h hh.symm
    simp [Mem.alloc, Mem.lookup, heapFind, h, h2]

theorem MemWF.alloc {m : Mem} (wf : MemWF m) (a : Alloc) : MemWF (m.alloc a).2 := by
  constructor
  · simp only [Mem.alloc, List.map_cons]
    refine List.nodup_cons.mpr ⟨?_, wf.nodup⟩
    intro hmem
    exact absurd (wf.bound _ hmem).2 (lt_irrefl _)
  · intro i hi
    simp only [Mem.alloc, List.map_cons, List.mem_cons] at hi
    rcases hi with h | h
    · subst h; exact ⟨wf.pos, Nat.lt_succ_self _⟩
    · have := wf.bound i h
      exact ⟨this.1, Nat.lt_succ_of_lt this.2⟩
  · exact Nat.lt_succ_of_lt wf.pos

theorem removeId_map_fst_sublist (i : Nat) (l : List (Nat × Alloc)) :
    ((removeId i l).map Prod.fst).Sublist (l.map Prod.fst) := by
  induction l with
  | nil => simp [removeId]
  | cons e rest ih =>
      unfold removeId
      by_cases h : e.1 = i
      · simp only [if_pos h, List.map_cons]
        exact List.sublist_cons_self _ _
      · simp only [if_neg h, List.map_cons]
        exact ih.cons₂ _

theorem heapFind_removeId {i j : Nat} {l : List (Nat × Alloc)}
    (hnd : (l.map Prod.fst).Nodup) :
    heapFind i (removeId j l) = if i = j then none else heapFind i l := by
  induction l with
  | nil => by_cases h : i = j <;> simp [removeId, heapFind, h]
  | cons e rest ih =>
      simp only [List.map_cons, List.nodup_cons] at hnd
      unfold removeId
      by_cases hej : e.1 = j
      · rw [if_pos hej]
        by_cases hij : i = j
        · rw [if_pos hij]
          apply heapFind_not_mem
          rw [hij, ← hej]
          exact hnd.1
        · rw [if_neg hij]
          have hei : ¬ (e.1 = i) := fun h => hij (by rw [← h, hej])
          simp [heapFind, hei]
      · rw [if_neg hej]
        by_cases hei : e.1 = i
        · have hij : ¬ (i = j) := fun h => hej (by rw [hei, h])
          simp [heapFind, hei, hij]
        · simp [heapFind, hei, ih hnd.2]

theorem heapFind_updateId {i j : Nat} {a : Alloc} {l : List (Nat × Alloc)} :
    heapFind i (updateId j a l) =
      if i = j ∧ (heapFind i l).isSome then some a else heapFind i l := by
  induction l with
  | nil => simp [updateId, heapFind]
  | cons e rest ih =>
      unfold updateId
      by_cases hej : e.1 = j
      · by_cases hij : i = j
        · simp [heapFind, hej, hij]
        · have hji : ¬ (j = i) := fun h => hij h.symm
          simp [heapFind, hej, hij, hji]
      · by_cases hei : e.1 = i
        · have hij : ¬ (i = j) := fun h => hej (by rw [hei, h])
          simp [heapFind, hej, hei, hij]
        · simp [heapFind, hej, hei, ih]

theorem updateId_map_fst (i : Nat) (a : Alloc) (l : List (Nat × Alloc)) :
    (updateId i a l).map Prod.fst = l.map Prod.fst := by
  induction l with
  | nil => rfl
  | cons e rest ih =>
      unfold updateId
      by_cases h : e.1 = i
      · simp only [if_pos h, List.map_cons, ih]
        rw [← h]
      · simp only [if_neg h, List.map_cons, ih]

theorem lookup_after_removeId {m : Mem} (wf : MemWF m) (j i : Nat) :
    (Mem.mk (removeId j m.heap) m.next).lookup i =
      if i = j then none else m.lookup i :=
  heapFind_removeId wf.nodup

theorem MemWF.removeId_wf {m : Mem} (wf : MemWF m) (j : Nat) :
    MemWF (Mem.mk (removeId j m.heap) m.next) := by
  constructor
  · exact (removeId_map_fst_sublist j m.heap).nodup wf.nodup
  · intro i hi
    exact wf.bound i ((removeId_map_fst_sublist j m.heap).mem hi)
  · exact wf.pos

theorem Mem.dealloc_some {m : Mem} {p : Ptr} {a : Alloc}
    (h : m.lookup p.alloc = some a) (hoff : p.offset = 0) :
    m.dealloc p = some ⟨removeId p.alloc m.heap, m.next⟩ := by
  unfold Mem.dealloc
  rw [if_pos ⟨by simp [h], hoff⟩]

theorem Mem.dealloc_eq {m m' : Mem} {p : Ptr} (h : m.dealloc p = some m') :
    m' = ⟨removeId p.alloc m.heap, m.next⟩ ∧ p.offset = 0 ∧ (m.lookup p.alloc).isSome := by
  unfold Mem.dealloc at h
  by_cases hc : (m.lookup p.alloc).isSome ∧ p.offset = 0
  · rw [if_pos hc] at h
    exact ⟨(Option.some_injective _ h).symm, hc.2, hc.1⟩
  · rw [if_neg hc] at h; simp at h

theorem Mem.lookup_dealloc {m m' : Mem} (wf : MemWF m) {p : Ptr}
    (h : m.dealloc p = some m') (i : Nat) :
    m'.lookup i = if i = p.alloc then none else m.lookup i := by
  obtain ⟨he, -, -⟩ := Mem.dealloc_eq h
  subst he
  exact lookup_after_removeId wf p.alloc i

theorem Mem.next_dealloc {m m' : Mem} {p : Ptr} (h : m.dealloc p = some m') :
    m'.next = m.next := by
  obtain ⟨he, -, -⟩ := Mem.dealloc_eq h
  subst he; rfl

theorem MemWF.dealloc {m m' : Mem} (wf : MemWF m) {p : Ptr}
    (h : m.dealloc p = some m') : MemWF m' := by
  obtain ⟨he, -, -⟩ := Mem.dealloc_eq h
  subst he
  exact wf.removeId_wf p.alloc

theorem Mem.writeUnits_spec {m : Mem} {p : Ptr} {data w : List Nat}
    (hl : m.lookup p.alloc = some (.str w)) (hle : p.offset + data.length ≤ w.length) :
    m.writeUnits p data =
      some ⟨updateId p.alloc (.str (w.take p.offset ++ data ++ w.drop (p.offset + data.length))) m.heap, m.next⟩ := by
  unfold Mem.writeUnits
  rw [hl]
  simp only [if_pos hle]

theorem Mem.lookup_updateId (m : Mem) (j : Nat) (a : Alloc) (i : Nat) :
    (Mem.mk (updateId j a m.heap) m.next).lookup i =
      if i = j ∧ (m.lookup i).isSome then some a else m.lookup i :=
  heapFind_updateId

theorem MemWF.updateId_wf {m : Mem} (wf : MemWF m) (j : Nat) (a : Alloc) :
    MemWF (Mem.mk (updateId j a m.heap) m.next) := by
  constructor
  · rw [updateId_map_fst]; exact wf.nodup
  · intro i hi
    rw [updateId_map_fst] at hi
    exact wf.bound i hi
  · exact wf.pos

theorem takeUntilNull_not_mem {l w : List Nat} (h : takeUntilNull l = some w) : 0 ∉ w := by
  induction l generalizing w with
  | nil => simp [takeUntilNull] at h
  | cons u rest ih =>
      unfold takeUntilNull at h
      by_cases hu : u = 0
      · rw [if_pos hu] at h
        have := Option.some_injective _ h
        subst this; simp
      · rw [if_neg hu] at h
        cases hr : takeUntilNull rest with
        | none => rw [hr] at h; simp at h
        | some w' =>
            rw [hr] at h
            simp only [Option.map_some'] at h
            have := Option.some_injective _ h
            subst this
            intro hmem
            rcases List.mem_cons.mp hmem with h0 | h0
            · exact hu h0.symm
            · exact ih hr h0

theorem takeUntilNull_append {w rest : List Nat} (h : 0 ∉ w) :
    takeUntilNull (w ++ 0 :: rest) = some w := by
  induction w with
  | nil => simp [takeUntilNull]
  | cons u t ih =>
      simp only [List.mem_cons, not_or] at h
      simp only [List.cons_append]
      unfold takeUntilNull
      rw [if_neg (Ne.symm h.1), ih h.2]
      rfl

theorem Mem.readStr_no_zero {m : Mem} {p : Ptr} {w : List Nat}
    (h : m.readStr p = some w) : 0 ∉ w := by
  unfold Mem.readStr strAt at h
  cases hl : m.lookup p.alloc with
  | none => rw [hl] at h; simp at h
  | some a =>
      rw [hl] at h
      cases a with
      | str u => exact takeUntilNull_not_mem h
      | ptrs _ => simp at h

theorem Mem.readStr_str {m : Mem} {p : Ptr} {w : List Nat}
    (hl : m.lookup p.alloc = some (.str w)) :
    m.readStr p = takeUntilNull (w.drop p.offset) := by
  unfold Mem.readStr strAt
  rw [hl]

/-! ### The environment map

`EnvVars.map` is a hash map from variable names to payload pointers; we embed
it as an association list (iteration order of the hash map is
implementation-defined, so a list order is a valid refinement). -/

/-- A variable name or value: a sequence of non-null units. -/
abbrev EnvName := List Nat

def envLookup (l : List (EnvName × Ptr)) (k : EnvName) : Option Ptr :=
  match l with
  | [] => none
  | e :: rest => if e.1 = k then some e.2 else envLookup rest k

/-- `map.insert`: replace the entry in place (or append), returning the
previous pointer for the key. -/
def envInsert (k : EnvName) (v : Ptr) : List (EnvName × Ptr) → List (EnvName × Ptr) × Option Ptr
  | [] => ([(k, v)], none)
  | e :: rest =>
      if e.1 = k then ((k, v) :: rest, some e.2)
      else
        let r := envInsert k v rest
        (e :: r.1, r.2)

/-- `map.remove`: drop the entry, returning the previous pointer for the key. -/
def envRemove (k : EnvName) : List (EnvName × Ptr) → List (EnvName × Ptr) × Option Ptr
  | [] => ([], none)
  | e :: rest =>
      if e.1 = k then (rest, some e.2)
      else
        let r := envRemove k rest
        (e :: r.1, r.2)

theorem envInsert_snd (k : EnvName) (v : Ptr) (l : List (EnvName × Ptr)) :
    (envInsert k v l).2 = envLookup l k := by
  induction l with
  | nil => rfl
  | cons e rest ih =>
      unfold envInsert envLookup
      by_cases h : e.1 = k
      · simp [h]
      · simp [h, ih]

theorem envRemove_snd (k : EnvName) (l : List (EnvName × Ptr)) :
    (envRemove k l).2 = envLookup l k := by
  induction l with
  | nil => rfl
  | cons e rest ih =>
      unfold envRemove envLookup
      by_cases h : e.1 = k
      · simp [h]
      · simp [h, ih]

theorem envLookup_envInsert (k : EnvName) (v : Ptr) (l : List (EnvName × Ptr)) (k' : EnvName) :
    envLookup (envInsert k v l).1 k' = if k' = k then some v else envLookup l k' := by
  induction l with
  | nil =>
      unfold envInsert envLookup
      by_cases h : k' = k
      · simp [h]
      · have h2 : ¬ (k = k') := fun hh => h hh.symm
        simp [h, h2, envLookup]
  | cons e rest ih =>
      unfold envInsert
      by_cases he : e.1 = k
      · by_cases h : k' = k
        · simp [envLookup, he, h]
        · have h2 : ¬ (k = k') := fun hh => h hh.symm
          simp [envLookup, he, h, h2]
      · by_cases hek : e.1 = k'
        · have h : ¬ (k' = k) := fun hh => he (by rw [hek, hh])
          simp [envLookup, he, hek, h]
        · simp [envLookup, he, hek, ih]

theorem envLookup_envRemove {k : EnvName} {l : List (EnvName × Ptr)}
    (hnd : (l.map Prod.fst).Nodup) (k' : EnvName) :
    envLookup (envRemove k l).1 k' = if k' = k then none else envLookup l k' := by
  induction l with
  | nil =>
      unfold envRemove envLookup
      by_cases h : k' = k <;> simp [h]
  | cons e rest ih =>
      simp only [List.map_cons, List.nodup_cons] at hnd
      unfold envRemove
      by_cases he : e.1 = k
      · by_cases h : k' = k
        · rw [if_pos h]
          simp only [if_pos he]
          cases hf : envLookup rest k' with
          | none => rfl
          | some p =>
              exfalso
              apply hnd.1
              rw [he, ← h]
              clear ih hnd
              induction rest with
              | nil => simp [envLookup] at hf
              | cons e2 r2 ih2 =>
                  unfold envLookup at hf
                  by_cases h2 : e2.1 = k'
                  · rw [← h2]
                    exact List.mem_map_of_mem Prod.fst (List.mem_cons_self _ _)
                  · rw [if_neg h2] at hf
                    simp only [List.map_cons, List.mem_cons]
                    exact Or.inr (ih2 hf)
        · have hek : ¬ (e.1 = k') := fun hh => h (by rw [← hh, he])
          have hke : ¬ (k = k') := fun hh => h hh.symm
          simp [envLookup, he, h, hek, hke]
      · by_cases hek : e.1 = k'
        · have h : ¬ (k' = k) := fun hh => he (by rw [hek, hh])
          simp [envLookup, he, hek, h]
        · simp [envLookup, he, hek, ih hnd.2]

theorem envLookup_mem_fst {l : List (EnvName × Ptr)} {k : EnvName} {p : Ptr}
    (h : envLookup l k = some p) : k ∈ l.map Prod.fst := by
  induction l with
  | nil => simp [envLookup] at h
  | cons e rest ih =>
      unfold envLookup at h
      by_cases he : e.1 = k
      · rw [← he]
        exact List.mem_map_of_mem Prod.fst (List.mem_cons_self _ _)
      · rw [if_neg he] at h
        exact List.mem_cons_of_mem _ (ih h)

theorem envLookup_mem {l : List (EnvName × Ptr)} {k : EnvName} {p : Ptr}
    (h : envLookup l k = some p) : (k, p) ∈ l := by
  induction l with
  | nil => simp [envLookup] at h
  | cons e rest ih =>
      unfold envLookup at h
      by_cases he : e.1 = k
      · rw [if_pos he] at h
        have := Option.some_injective _ h
        subst this
        have : e = (k, e.2) := by rw [← he]
        rw [← this]
        exact List.mem_cons_self _ _
      · rw [if_neg he] at h
        exact List.mem_cons_of_mem _ (ih h)

theorem envLookup_none_not_mem {l : List (EnvName × Ptr)} {k : EnvName}
    (h : envLookup l k = none) : k ∉ l.map Prod.fst := by
  induction l with
  | nil => simp
  | cons e rest ih =>
      unfold envLookup at h
      by_cases he : e.1 = k
      · rw [if_pos he] at h; simp at h
      · rw [if_neg he] at h
        simp only [List.map_cons, List.mem_cons]
        rintro (hh | hh)
        · exact he hh.symm
        · exact ih h hh

theorem mem_envInsert {k : EnvName} {v : Ptr} {l : List (EnvName × Ptr)} {e : EnvName × Ptr}
    (hnd : (l.map Prod.fst).Nodup) :
    e ∈ (envInsert k v l).1 ↔ e = (k, v) ∨ (e ∈ l ∧ e.1 ≠ k) := by
  induction l with
  | nil => simp [envInsert]
  | cons x rest ih =>
      simp only [List.map_cons, List.nodup_cons] at hnd
      unfold envInsert
      by_cases hx : x.1 = k
      · simp only [if_pos hx, List.mem_cons]
        constructor
        · rintro (h | h)
          · exact Or.inl h
          · refine Or.inr ⟨Or.inr h, ?_⟩
            intro hek
            apply hnd.1
            rw [hx, ← hek]
            exact List.mem_map_of_mem Prod.fst h
        · rintro (h | ⟨hmem, hek⟩)
          · exact Or.inl h
          · rcases hmem with h | h
            · exfalso; exact hek (by rw [h, hx])
            · exact Or.inr h
      · simp only [if_neg hx, List.mem_cons]
        constructor
        · rintro (h | h)
          · subst h
            refine Or.inr ⟨Or.inl rfl, hx⟩
          · rcases (ih hnd.2).mp h with h2 | h2
            · exact Or.inl h2
            · exact Or.inr ⟨Or.inr h2.1, h2.2⟩
        · rintro (h | ⟨hmem, hek⟩)
          · exact Or.inr ((ih hnd.2).mpr (Or.inl h))
          · rcases hmem with h | h
            · exact Or.inl h
            · exact Or.inr ((ih hnd.2).mpr (Or.inr ⟨h, hek⟩))

theorem mem_envRemove {k : EnvName} {l : List (EnvName × Ptr)} {e : EnvName × Ptr}
    (hnd : (l.map Prod.fst).Nodup) :
    e ∈ (envRemove k l).1 ↔ e ∈ l ∧ e.1 ≠ k := by
  induction l with
  | nil => simp [envRemove]
  | cons x rest ih =>
      simp only [List.map_cons, List.nodup_cons] at hnd
      unfold envRemove
      by_cases hx : x.1 = k
      · simp only [if_pos hx, List.mem_cons]
        constructor
        · intro h
          refine ⟨Or.inr h, ?_⟩
          intro hek
          apply hnd.1
          rw [hx, ← hek]
          exact List.mem_map_of_mem Prod.fst h
        · rintro ⟨h | h, hek⟩
          · exfalso; exact hek (by rw [h, hx])
          · exact h
      · simp only [if_neg hx, List.mem_cons]
        constructor
        · rintro (h | h)
          · subst h; exact ⟨Or.inl rfl, hx⟩
          · rcases (ih hnd.2).mp h with ⟨h1, h2⟩
            exact ⟨Or.inr h1, h2⟩
        · rintro ⟨h | h, hek⟩
          · exact Or.inl h
          · exact Or.inr ((ih hnd.2).mpr ⟨h, hek⟩)

theorem envInsert_fst_nodup {k : EnvName} {v : Ptr} {l : List (EnvName × Ptr)}
    (hnd : (l.map Prod.fst).Nodup) : ((envInsert k v l).1.map Prod.fst).Nodup := by
  induction l with
  | nil => simp [envInsert]
  | cons x rest ih =>
      simp only [List.map_cons, List.nodup_cons] at hnd
      unfold envInsert
      by_cases hx : x.1 = k
      · simp only [if_pos hx, List.map_cons, List.nodup_cons]
        exact ⟨by rw [← hx]; exact hnd.1, hnd.2⟩
      · simp only [if_neg hx, List.map_cons, List.nodup_cons]
        refine ⟨?_, ih hnd.2⟩
        intro hmem
        have : ∀ y ∈ (envInsert k v rest).1.map Prod.fst, y = k ∨ y ∈ rest.map Prod.fst := by
          intro y hy
          rcases List.mem_map.mp hy with ⟨e, he, hye⟩
          rcases (mem_envInsert hnd.2).mp he with h | h
          · left; rw [← hye, h]
          · right; rw [← hye]; exact List.mem_map_of_mem Prod.fst h.1
        rcases this _ hmem with h | h
        · exact hx h
        · exact hnd.1 h

theorem envRemove_fst_nodup {k : EnvName} {l : List (EnvName × Ptr)}
    (hnd : (l.map Prod.fst).Nodup) : ((envRemove k l).1.map Prod.fst).Nodup := by
  induction l with
  | nil => simp [envRemove]
  | cons x rest ih =>
      simp only [List.map_cons, List.nodup_cons] at hnd
      unfold envRemove
      by_cases hx : x.1 = k
      · simp only [if_pos hx]
        exact hnd.2
      · simp only [if_neg hx, List.map_cons, List.nodup_cons]
        refine ⟨?_, ih hnd.2⟩
        intro hmem
        rcases List.mem_map.mp hmem with ⟨e, he, hye⟩
        have := (mem_envRemove hnd.2).mp he
        apply hnd.1
        rw [← hye]
        exact List.mem_map_of_mem Prod.fst this.1

/-! ### The environment shim state and its Unix-family operations -/

/-- Last-error codes the shim can set. -/
inductive ErrCode where
  | EINVAL
  | ERROR_ENVVAR_NOT_FOUND
deriving DecidableEq

/-- How a shim operation can halt the interpreter instead of returning:
an undefined-behavior diagnostic, an unsupported-operation diagnostic, or a
memory error raised by the interpreter core (bad read, bad deallocation). -/
inductive Halt where
  | ub
  | unsup
  | memErr
deriving DecidableEq

/-- The shim state: guest memory, the `EnvVars.map` from names to payload
pointers, the content of the `environ` cell (Unix targets), and the per-thread
last-error slot. -/
structure EnvState where
  mem : Mem
  map : List (EnvName × Ptr)
  environ : Ptr
  lastError : Option ErrCode
deriving DecidableEq

def setLastError (s : EnvState) (e : ErrCode) : EnvState :=
  { s with lastError := some e }

/-- The serialized payload `name=value` plus terminator (unit 61 is the
equals sign). -/
def envPayload (name value : EnvName) : List Nat :=
  name ++ 61 :: value ++ [0]

/-- `alloc_env_var_as_c_str`: allocate `name=value` with a trailing
terminator in runtime memory. -/
def alloc_env_var_as_c_str (name value : EnvName) (m : Mem) : Ptr × Mem :=
  m.alloc (.str (envPayload name value))

/-- `alloc_env_var_as_wide_str`: identical content in 16-bit units. -/
def alloc_env_var_as_wide_str (name value : EnvName) (m : Mem) : Ptr × Mem :=
  m.alloc (.str (envPayload name value))

/-- `update_environ`: deallocate the old `environ` array if the cell is
non-null, then allocate a fresh array holding every payload pointer in map
order followed by a null sentinel, and store its address in the cell. -/
def update_environ (s : EnvState) : Except Halt EnvState :=
  let m1res := if s.environ.isNull then some s.mem else s.mem.dealloc s.environ
  match m1res with
  | none => .error .memErr
  | some m1 =>
      let r := m1.alloc (.ptrs (s.map.map Prod.snd ++ [Ptr.null]))
      .ok { s with mem := r.2, environ := r.1 }

/-- `getenv`: read the name, perform the map lookup, and on a hit return the
payload pointer offset past the `name=` prefix; on a miss return null.  (The
code also reads the `environ` cell purely for data-race detection; that read
has no effect in this sequential model.) -/
def getenv (s : EnvState) (name_ptr : Ptr) : Except Halt Ptr :=
  match s.mem.readStr name_ptr with
  | none => .error .memErr
  | some name =>
      match envLookup s.map name with
      | some var_ptr => .ok ⟨var_ptr.alloc, var_ptr.offset + (name.length + 1)⟩
      | none => .ok Ptr.null

/-- `setenv`: validate the name (non-null pointer, non-empty, no equals
sign); only then read the value; on success allocate a fresh payload, insert
it (deallocating any replaced payload), rebuild `environ`, and return 0.  On
validation failure set `EINVAL` and return -1. -/
def setenv (s : EnvState) (name_ptr value_ptr : Ptr) : Except Halt (Int × EnvState) :=
  let newRes : Except Halt (Option (EnvName × EnvName)) :=
    if name_ptr.isNull then .ok none
    else
      match s.mem.readStr name_ptr with
      | none => .error .memErr
      | some name =>
          if name ≠ [] ∧ 61 ∉ name then
            match s.mem.readStr value_ptr with
            | none => .error .memErr
            | some value => .ok (some (name, value))
          else .ok none
  match newRes with
  | .error e => .error e
  | .ok none => .ok (-1, setLastError s .EINVAL)
  | .ok (some nv) =>
      let r := alloc_env_var_as_c_str nv.1 nv.2 s.mem
      let ins := envInsert nv.1 r.1 s.map
      let m2res := match ins.2 with
        | some old => r.2.dealloc old
        | none => some r.2
      match m2res with
      | none => .error .memErr
      | some m2 =>
          match update_environ { s with mem := m2, map := ins.1 } with
          | .error e => .error e
          | .ok s2 => .ok (0, s2)

/-- `unsetenv`: same name validation as `setenv`; on success remove the
entry (deallocating its payload when present), rebuild `environ`, and return
0 even when the name was absent. -/
def unsetenv (s : EnvState) (name_ptr : Ptr) : Except Halt (Int × EnvState) :=
  let successRes : Except Halt (Option (List (EnvName × Ptr) × Option Ptr)) :=
    if name_ptr.isNull then .ok none
    else
      match s.mem.readStr name_ptr with
      | none => .error .memErr
      | some name =>
          if name ≠ [] ∧ 61 ∉ name then .ok (some (envRemove name s.map))
          else .ok none
  match successRes with
  | .error e => .error e
  | .ok none => .ok (-1, setLastError s .EINVAL)
  | .ok (some rm) =>
      let m1res := match rm.2 with
        | some old => s.mem.dealloc old
        | none => some s.mem
      match m1res with
      | none => .error .memErr
      | some m1 =>
          match update_environ { s with mem := m1, map := rm.1 } with
          | .error e => .error e
          | .ok s2 => .ok (0, s2)

/-- `add_env_var` (Unix path): allocate the payload and insert it, ignoring
any replaced pointer (init never deallocates replaced payloads). -/
def add_env_var (s : EnvState) (name value : EnvName) : EnvState :=
  let r := alloc_env_var_as_c_str name value s.mem
  { s with mem := r.2, map := (envInsert name r.1 s.map).1 }

/-- `EnvVars::init` for a Unix target: forward the host environment subject
to the allowlist (or unconditionally when communication is enabled), install
the explicit overrides, then create the `environ` cell holding null and run
`update_environ`. -/
def env_init (communicate : Bool) (forwarded : List EnvName)
    (hostEnv setVars : List (EnvName × EnvName)) : Except Halt EnvState :=
  let s0 : EnvState := { mem := Mem.empty, map := [], environ := Ptr.null, lastError := none }
  let s1 :=
    if communicate || forwarded ≠ [] then
      hostEnv.foldl
        (fun s e => if communicate || e.1 ∈ forwarded then add_env_var s e.1 e.2 else s) s0
    else s0
  let s2 := setVars.foldl (fun s e => add_env_var s e.1 e.2) s1
  update_environ { s2 with environ := Ptr.null }

/-! ### Well-formedness invariants for shim states -/

/-- The payload stored for key `k`: offset 0, a live string allocation of
the form `k=v` with terminator, for a valid name. -/
def payloadOk (m : Mem) (k : EnvName) (p : Ptr) : Prop :=
  p.offset = 0 ∧ k ≠ [] ∧ 0 ∉ k ∧ 61 ∉ k ∧
  ∃ v, 0 ∉ v ∧ m.lookup p.alloc = some (.str (envPayload k v))

/-- Invariants of the environment map: distinct names, distinct payload
allocations, every entry holding a well-formed payload. -/
structure MapWF (m : Mem) (map : List (EnvName × Ptr)) : Prop where
  keysNodup : (map.map Prod.fst).Nodup
  idsNodup : (map.map (fun e => e.2.alloc)).Nodup
  payloads : ∀ e ∈ map, payloadOk m e.1 e.2

/-- Invariant of the Unix `environ` cell: it holds a live pointer array
containing exactly the payload pointers in map order plus a null sentinel. -/
structure EnvironWF (m : Mem) (map : List (EnvName × Ptr)) (env : Ptr) : Prop where
  offset : env.offset = 0
  arr : m.lookup env.alloc = some (.ptrs (map.map Prod.snd ++ [Ptr.null]))

/-- Full well-formedness of a Unix shim state. -/
structure WF (s : EnvState) : Prop where
  memWF : MemWF s.mem
  mapWF : MapWF s.mem s.map
  environWF : EnvironWF s.mem s.map s.environ

/-- Well-formedness of a Windows shim state (no `environ` cell). -/
structure WFW (s : EnvState) : Prop where
  memWF : MemWF s.mem
  mapWF : MapWF s.mem s.map

theorem MemWF.lookup_zero {m : Mem} (wf : MemWF m) : m.lookup 0 = none := by
  apply heapFind_not_mem
  intro h
  exact absurd (wf.bound _ h).1 (lt_irrefl _)

theorem payload_ne_arr {m : Mem} {k : EnvName} {p : Ptr} (hp : payloadOk m k p)
    {env : Ptr} {arr : List Ptr} (harr : m.lookup env.alloc = some (.ptrs arr)) :
    p.alloc ≠ env.alloc := by
  obtain ⟨-, -, -, -, v, -, hl⟩ := hp
  intro h
  rw [h, harr] at hl
  simp at hl

/-- What `update_environ` needs of the cell: null, or a live pointer array. -/
def CellOk (m : Mem) (env : Ptr) : Prop :=
  env = Ptr.null ∨ (env.offset = 0 ∧ ∃ arr, m.lookup env.alloc = some (.ptrs arr))

theorem update_environ_spec (s : EnvState) (hm : MemWF s.mem)
    (hmap : MapWF s.mem s.map) (hcell : CellOk s.mem s.environ) :
    ∃ s', update_environ s = .ok s' ∧
      s'.map = s.map ∧ s'.lastError = s.lastError ∧
      s'.environ = ⟨s.mem.next, 0⟩ ∧ s'.mem.next = s.mem.next + 1 ∧
      (∀ i, i ≠ s.mem.next → i ≠ s.environ.alloc → s'.mem.lookup i = s.mem.lookup i) ∧
      (s.environ.isNull = false → s'.mem.lookup s.environ.alloc = none) ∧
      MemWF s'.mem ∧ MapWF s'.mem s.map ∧ EnvironWF s'.mem s.map s'.environ := by
  rcases hcell with hnull | ⟨hoff, arr, harr⟩
  · -- the cell is null: no deallocation, just the fresh array
    have hn : s.environ.isNull = true := by rw [hnull]; rfl
    refine ⟨{ s with
        mem := (s.mem.alloc (.ptrs (s.map.map Prod.snd ++ [Ptr.null]))).2,
        environ := ⟨s.mem.next, 0⟩ }, ?_, rfl, rfl, rfl, rfl, ?_, ?_, ?_, ?_, ?_⟩
    · simp [update_environ, hn, Mem.alloc]
    · intro i hi _
      rw [Mem.lookup_alloc, if_neg hi]
    · intro hfalse; rw [hn] at hfalse; cases hfalse
    · exact hm.alloc _
    · refine ⟨hmap.keysNodup, hmap.idsNodup, ?_⟩
      intro e he
      obtain ⟨h1, h2, h3, h4, v, hv, hl⟩ := hmap.payloads e he
      refine ⟨h1, h2, h3, h4, v, hv, ?_⟩
      rw [Mem.lookup_alloc]
      rw [if_neg (fun hh : e.2.alloc = s.mem.next => by
        rw [hh] at hl; rw [Mem.lookup_next_none hm] at hl; cases hl)]
      exact hl
    · refine ⟨rfl, ?_⟩
      show (s.mem.alloc _).2.lookup s.mem.next = _
      rw [Mem.lookup_alloc, if_pos rfl]
  · -- the cell holds a live array: deallocate it first
    have henv0 : s.environ.alloc ≠ 0 := by
      intro h0
      rw [h0, hm.lookup_zero] at harr
      cases harr
    have hn : s.environ.isNull = false := Ptr.isNull_false_of_alloc henv0
    have hde : s.mem.dealloc s.environ = some ⟨removeId s.environ.alloc s.mem.heap, s.mem.next⟩ :=
      Mem.dealloc_some harr hoff
    set m1 : Mem := ⟨removeId s.environ.alloc s.mem.heap, s.mem.next⟩ with hm1
    have hm1wf : MemWF m1 := hm.removeId_wf _
    have hm1look : ∀ i, m1.lookup i = if i = s.environ.alloc then none else s.mem.lookup i :=
      lookup_after_removeId hm _
    refine ⟨{ s with
        mem := (m1.alloc (.ptrs (s.map.map Prod.snd ++ [Ptr.null]))).2,
        environ := ⟨s.mem.next, 0⟩ }, ?_, rfl, rfl, rfl, rfl, ?_, ?_, ?_, ?_, ?_⟩
    · simp [update_environ, hn, hde, Mem.alloc, hm1]
    · intro i hinext hienv
      show (m1.alloc _).2.lookup i = _
      rw [Mem.lookup_alloc]
      have : m1.next = s.mem.next := rfl
      rw [this, if_neg hinext, hm1look, if_neg hienv]
    · intro _
      show (m1.alloc _).2.lookup s.environ.alloc = none
      rw [Mem.lookup_alloc]
      have hne : s.environ.alloc ≠ m1.next := by
        have := (Mem.lookup_bound hm harr).2
        exact fun hh => absurd (hh ▸ this) (lt_irrefl _)
      rw [if_neg hne, hm1look, if_pos rfl]
    · exact hm1wf.alloc _
    · refine ⟨hmap.keysNodup, hmap.idsNodup, ?_⟩
      intro e he
      obtain ⟨h1, h2, h3, h4, v, hv, hl⟩ := hmap.payloads e he
      refine ⟨h1, h2, h3, h4, v, hv, ?_⟩
      show (m1.alloc _).2.lookup e.2.alloc = _
      rw [Mem.lookup_alloc]
      have hne : e.2.alloc ≠ m1.next := by
        have := (Mem.lookup_bound hm hl).2
        exact fun hh => absurd (hh ▸ this) (lt_irrefl _)
      rw [if_neg hne, hm1look,
        if_neg (payload_ne_arr ⟨h1, h2, h3, h4, v, hv, hl⟩ harr)]
      exact hl
    · refine ⟨rfl, ?_⟩
      show (m1.alloc _).2.lookup s.mem.next = _
      have : m1.next = s.mem.next := rfl
      rw [Mem.lookup_alloc, this, if_pos rfl]

theorem Mem.readStr_lookup {m : Mem} {p : Ptr} {w : List Nat} (h : m.readStr p = some w) :
    ∃ u, m.lookup p.alloc = some (.str u) ∧ takeUntilNull (u.drop p.offset) = some w := by
  unfold Mem.readStr at h
  cases hl : m.lookup p.alloc with
  | none => rw [hl] at h; simp [strAt] at h
  | some a =>
      rw [hl] at h
      cases a with
      | str u => exact ⟨u, rfl, by simpa [strAt] using h⟩
      | ptrs _ => simp [strAt] at h

theorem envInsert_ids_mem {k : EnvName} {v : Ptr} {l : List (EnvName × Ptr)} {x : Nat}
    (h : x ∈ (envInsert k v l).1.map (fun e => e.2.alloc)) :
    x = v.alloc ∨ x ∈ l.map (fun e => e.2.alloc) := by
  induction l with
  | nil =>
      simp [envInsert] at h
      exact Or.inl h
  | cons e rest ih =>
      unfold envInsert at h
      by_cases he : e.1 = k
      · rw [if_pos he] at h
        simp only [List.map_cons, List.mem_cons] at h
        rcases h with h | h
        · exact Or.inl h
        · exact Or.inr (by simp only [List.map_cons, List.mem_cons]; exact Or.inr h)
      · rw [if_neg he] at h
        simp only [List.map_cons, List.mem_cons] at h
        rcases h with h | h
        · exact Or.inr (by simp only [List.map_cons, List.mem_cons]; exact Or.inl h)
        · rcases ih h with h2 | h2
          · exact Or.inl h2
          · exact Or.inr (by simp only [List.map_cons, List.mem_cons]; exact Or.inr h2)

theorem envInsert_ids_nodup {k : EnvName} {v : Ptr} {l : List (EnvName × Ptr)}
    (hnd : (l.map (fun e => e.2.alloc)).Nodup)
    (hfresh : v.alloc ∉ l.map (fun e => e.2.alloc)) :
    ((envInsert k v l).1.map (fun e => e.2.alloc)).Nodup := by
  induction l with
  | nil => simp [envInsert]
  | cons e rest ih =>
      simp only [List.map_cons, List.nodup_cons] at hnd
      simp only [List.map_cons, List.mem_cons, not_or] at hfresh
      unfold envInsert
      by_cases he : e.1 = k
      · simp only [if_pos he, List.map_cons, List.nodup_cons]
        exact ⟨fun h => hfresh.2 h, hnd.2⟩
      · simp only [if_neg he, List.map_cons, List.nodup_cons]
        refine ⟨?_, ih hnd.2 hfresh.2⟩
        intro h
        rcases envInsert_ids_mem h with h2 | h2
        · exact hfresh.1 h2.symm
        · exact hnd.1 h2

theorem envRemove_sublist (k : EnvName) (l : List (EnvName × Ptr)) :
    (envRemove k l).1.Sublist l := by
  induction l with
  | nil => simp [envRemove]
  | cons e rest ih =>
      unfold envRemove
      by_cases he : e.1 = k
      · simp only [if_pos he]
        exact List.sublist_cons_self _ _
      · simp only [if_neg he]
        exact ih.cons₂ _

theorem WF.payload_bound {s : EnvState} (wf : WF s) {e : EnvName × Ptr} (he : e ∈ s.map) :
    0 < e.2.alloc ∧ e.2.alloc < s.mem.next := by
  obtain ⟨-, -, -, -, v, -, hl⟩ := wf.mapWF.payloads e he
  exact Mem.lookup_bound wf.memWF hl

theorem WF.environ_bound {s : EnvState} (wf : WF s) :
    0 < s.environ.alloc ∧ s.environ.alloc < s.mem.next :=
  Mem.lookup_bound wf.memWF wf.environWF.arr

theorem WF.payload_ne_environ {s : EnvState} (wf : WF s) {e : EnvName × Ptr} (he : e ∈ s.map) :
    e.2.alloc ≠ s.environ.alloc :=
  payload_ne_arr (wf.mapWF.payloads e he) wf.environWF.arr

theorem WF.ids_lt {s : EnvState} (wf : WF s) :
    ∀ x ∈ s.map.map (fun e => e.2.alloc), x < s.mem.next := by
  intro x hx
  rcases List.mem_map.mp hx with ⟨e, he, hxe⟩
  rw [← hxe]
  exact (wf.payload_bound he).2

/-- Everything a successful `setenv` guarantees about the new state, relative
to the old one. -/
def SetenvPost (s : EnvState) (n v : EnvName) (s' : EnvState) : Prop :=
  s'.map = (envInsert n ⟨s.mem.next, 0⟩ s.map).1 ∧
  envLookup s'.map n = some ⟨s.mem.next, 0⟩ ∧
  (∀ k, k ≠ n → envLookup s'.map k = envLookup s.map k) ∧
  s'.mem.lookup s.mem.next = some (.str (envPayload n v)) ∧
  (∀ old, envLookup s.map n = some old → s'.mem.lookup old.alloc = none) ∧
  (∀ e ∈ s.map, e.1 ≠ n → s'.mem.lookup e.2.alloc = s.mem.lookup e.2.alloc) ∧
  s'.mem.lookup s.environ.alloc = none ∧
  s'.environ = ⟨s.mem.next + 1, 0⟩ ∧
  s'.lastError = s.lastError ∧
  WF s'


theorem setenv_tail (s : EnvState) (wf : WF s) (n v : EnvName)
    (hne : n ≠ []) (heq : 61 ∉ n) (h0n : 0 ∉ n) (h0v : 0 ∉ v)
    (m2 : Mem) (hm2wf : MemWF m2) (hm2next : m2.next = s.mem.next + 1)
    (hm2N : m2.lookup s.mem.next = some (.str (envPayload n v)))
    (hm2other : ∀ i, i ≠ s.mem.next →
      (∀ old, envLookup s.map n = some old → i ≠ old.alloc) →
      m2.lookup i = s.mem.lookup i)
    (hm2old : ∀ old, envLookup s.map n = some old → m2.lookup old.alloc = none) :
    ∃ s', update_environ
        { s with mem := m2, map := (envInsert n ⟨s.mem.next, 0⟩ s.map).1 } = .ok s'
      ∧ SetenvPost s n v s' := by
  obtain ⟨henv1, henv2⟩ := wf.environ_bound
  have henvne : ∀ old, envLookup s.map n = some old → s.environ.alloc ≠ old.alloc := by
    intro old hold
    exact (payload_ne_arr (wf.mapWF.payloads _ (envLookup_mem hold)) wf.environWF.arr).symm
  have harr2 : m2.lookup s.environ.alloc =
      some (.ptrs (s.map.map Prod.snd ++ [Ptr.null])) := by
    rw [hm2other s.environ.alloc (by omega) henvne]
    exact wf.environWF.arr
  have hmapwf2 : MapWF m2 (envInsert n (⟨s.mem.next, 0⟩ : Ptr) s.map).1 := by
    refine ⟨envInsert_fst_nodup wf.mapWF.keysNodup, ?_, ?_⟩
    · exact envInsert_ids_nodup wf.mapWF.idsNodup
        (fun h => absurd (wf.ids_lt _ h) (lt_irrefl _))
    · intro e he
      rcases (mem_envInsert wf.mapWF.keysNodup).mp he with h | ⟨hmem, hek⟩
      · subst h
        exact ⟨rfl, hne, h0n, heq, v, h0v, hm2N⟩
      · obtain ⟨h1, h2, h3, h4, w, hw, hl⟩ := wf.mapWF.payloads e hmem
        refine ⟨h1, h2, h3, h4, w, hw, ?_⟩
        rw [hm2other e.2.alloc (by have := (wf.payload_bound hmem).2; omega) ?_]
        · exact hl
        · intro old hold heal
          have : e = (n, old) := List.inj_on_of_nodup_map wf.mapWF.idsNodup
            hmem (envLookup_mem hold) heal
          exact hek (by rw [this])
  have hcell : CellOk m2 s.environ := Or.inr ⟨wf.environWF.offset, _, harr2⟩
  obtain ⟨s', hue, hsmap, hsle0, hsenv0, hsnext0, hunch0, hrel0, hmwf, hmapwf0, henvwf0⟩ :=
    update_environ_spec { s with mem := m2, map := (envInsert n (⟨s.mem.next, 0⟩ : Ptr) s.map).1 }
      hm2wf hmapwf2 hcell
  have hsle : s'.lastError = s.lastError := hsle0
  have hsenv : s'.environ = ⟨s.mem.next + 1, 0⟩ := by
    have h : s'.environ = ⟨m2.next, 0⟩ := hsenv0
    rw [hm2next] at h
    exact h
  have hunch : ∀ i, i ≠ m2.next → i ≠ s.environ.alloc →
      s'.mem.lookup i = m2.lookup i := hunch0
  have hrel : s.environ.isNull = false → s'.mem.lookup s.environ.alloc = none := hrel0
  have hmapwf : MapWF s'.mem (envInsert n (⟨s.mem.next, 0⟩ : Ptr) s.map).1 := hmapwf0
  have henvwf : EnvironWF s'.mem (envInsert n (⟨s.mem.next, 0⟩ : Ptr) s.map).1 s'.environ :=
    henvwf0
  refine ⟨s', hue, ?_, ?_, ?_, ?_, ?_, ?_, ?_, ?_, ?_, ?_⟩
  · exact hsmap
  · rw [hsmap]
    show envLookup (envInsert n (⟨s.mem.next, 0⟩ : Ptr) s.map).1 n = some ⟨s.mem.next, 0⟩
    rw [envLookup_envInsert, if_pos rfl]
  · intro k hk
    rw [hsmap]
    show envLookup (envInsert n (⟨s.mem.next, 0⟩ : Ptr) s.map).1 k = envLookup s.map k
    rw [envLookup_envInsert, if_neg hk]
  · rw [hunch s.mem.next (by omega) (by omega)]
    exact hm2N
  · intro old hold
    have hlt : old.alloc < s.mem.next := (wf.payload_bound (envLookup_mem hold)).2
    rw [hunch old.alloc (by omega) (fun h => (henvne old hold) h.symm)]
    exact hm2old old hold
  · intro e hmem hek
    have hlt : e.2.alloc < s.mem.next := (wf.payload_bound hmem).2
    have hnee : e.2.alloc ≠ s.environ.alloc := wf.payload_ne_environ hmem
    rw [hunch e.2.alloc (by omega) hnee]
    apply hm2other e.2.alloc (by omega)
    intro old hold heal
    have : e = (n, old) := List.inj_on_of_nodup_map wf.mapWF.idsNodup
      hmem (envLookup_mem hold) heal
    exact hek (by rw [this])
  · exact hrel (Ptr.isNull_false_of_alloc (by omega))
  · exact hsenv
  · exact hsle
  · refine ⟨hmwf, ?_, ?_⟩
    · rw [hsmap]; exact hmapwf
    · rw [hsmap]; exact henvwf

theorem setenv_spec (s : EnvState) (np vp : Ptr) (n v : EnvName) (wf : WF s)
    (hn : s.mem.readStr np = some n) (hv : s.mem.readStr vp = some v)
    (hne : n ≠ []) (heq : 61 ∉ n) :
    ∃ s', setenv s np vp = .ok (0, s') ∧ SetenvPost s n v s' := by
  have h0n := Mem.readStr_no_zero hn
  have h0v := Mem.readStr_no_zero hv
  obtain ⟨u, hul, -⟩ := Mem.readStr_lookup hn
  have hnull : np.isNull = false :=
    Ptr.isNull_false_of_alloc (by have := (Mem.lookup_bound wf.memWF hul).1; omega)
  have hmAwf : MemWF (Mem.mk ((s.mem.next, Alloc.str (envPayload n v)) :: s.mem.heap)
      (s.mem.next + 1)) := wf.memWF.alloc (.str (envPayload n v))
  have hmAlook : ∀ i, (Mem.mk ((s.mem.next, Alloc.str (envPayload n v)) :: s.mem.heap)
        (s.mem.next + 1)).lookup i =
      if i = s.mem.next then some (.str (envPayload n v)) else s.mem.lookup i :=
    fun i => Mem.lookup_alloc s.mem (.str (envPayload n v)) i
  cases hold : envLookup s.map n with
  | none =>
      obtain ⟨s', hue, hpost⟩ := setenv_tail s wf n v hne heq h0n h0v
        (Mem.mk ((s.mem.next, Alloc.str (envPayload n v)) :: s.mem.heap) (s.mem.next + 1))
        hmAwf rfl
        (by rw [hmAlook, if_pos rfl])
        (by intro i hi _; rw [hmAlook, if_neg hi])
        (by intro old h; rw [hold] at h; cases h)
      refine ⟨s', ?_, hpost⟩
      simp only [setenv, hnull, Bool.false_eq_true, if_false, hn, hne, heq,
        not_false_iff, and_self, if_true, hv, alloc_env_var_as_c_str, Mem.alloc,
        envInsert_snd, hold]
      rw [if_pos (show n ≠ [] ∧ True from ⟨hne, trivial⟩)]
      simp only [envInsert_snd, hold]
      rw [hue]
  | some old =>
      obtain ⟨holdoff0, -, -, -, w, hw, holdl0⟩ :=
        wf.mapWF.payloads (n, old) (envLookup_mem hold)
      have holdoff : old.offset = 0 := holdoff0
      have holdl : s.mem.lookup old.alloc = some (.str (envPayload n w)) := holdl0
      have holdlt : old.alloc < s.mem.next := (Mem.lookup_bound wf.memWF holdl).2
      have hmAold : (Mem.mk ((s.mem.next, Alloc.str (envPayload n v)) :: s.mem.heap)
          (s.mem.next + 1)).lookup old.alloc = some (.str (envPayload n w)) := by
        rw [hmAlook, if_neg (by omega)]
        exact holdl
      have hde : (Mem.mk ((s.mem.next, Alloc.str (envPayload n v)) :: s.mem.heap)
            (s.mem.next + 1)).dealloc old =
          some (Mem.mk (removeId old.alloc
              ((s.mem.next, Alloc.str (envPayload n v)) :: s.mem.heap)) (s.mem.next + 1)) :=
        Mem.dealloc_some hmAold holdoff
      have hm2wf : MemWF (Mem.mk (removeId old.alloc
          ((s.mem.next, Alloc.str (envPayload n v)) :: s.mem.heap)) (s.mem.next + 1)) :=
        hmAwf.removeId_wf _
      have hm2look : ∀ i, (Mem.mk (removeId old.alloc
            ((s.mem.next, Alloc.str (envPayload n v)) :: s.mem.heap)) (s.mem.next + 1)).lookup i =
          if i = old.alloc then none
          else (Mem.mk ((s.mem.next, Alloc.str (envPayload n v)) :: s.mem.heap)
            (s.mem.next + 1)).lookup i :=
        lookup_after_removeId hmAwf _
      obtain ⟨s', hue, hpost⟩ := setenv_tail s wf n v hne heq h0n h0v
        (Mem.mk (removeId old.alloc
          ((s.mem.next, Alloc.str (envPayload n v)) :: s.mem.heap)) (s.mem.next + 1))
        hm2wf rfl
        (by rw [hm2look, if_neg (by omega), hmAlook, if_pos rfl])
        (by
          intro i hi hold2
          rw [hm2look, if_neg (hold2 old hold), hmAlook, if_neg hi])
        (by
          intro old2 h
          rw [hold] at h
          have h2 : old2 = old := (Option.some_injective _ h).symm
          subst h2
          rw [hm2look, if_pos rfl])
      refine ⟨s', ?_, hpost⟩
      simp only [setenv, hnull, Bool.false_eq_true, if_false, hn, hne, heq,
        not_false_iff, and_self, if_true, hv, alloc_env_var_as_c_str, Mem.alloc,
        envInsert_snd, hold, hde]
      rw [if_pos (show n ≠ [] ∧ True from ⟨hne, trivial⟩)]
      simp only [envInsert_snd, hold, hde]
      rw [hue]

theorem envRemove_of_absent {k : EnvName} {l : List (EnvName × Ptr)}
    (h : envLookup l k = none) : (envRemove k l).1 = l := by
  induction l with
  | nil => rfl
  | cons e rest ih =>
      unfold envLookup at h
      unfold envRemove
      by_cases he : e.1 = k
      · rw [if_pos he] at h; cases h
      · rw [if_neg he] at h
        simp only [if_neg he, ih h]

/-- Everything a successful `unsetenv` guarantees about the new state. -/
def UnsetenvPost (s : EnvState) (n : EnvName) (s' : EnvState) : Prop :=
  s'.map = (envRemove n s.map).1 ∧
  envLookup s'.map n = none ∧
  (∀ k, k ≠ n → envLookup s'.map k = envLookup s.map k) ∧
  (∀ old, envLookup s.map n = some old → s'.mem.lookup old.alloc = none) ∧
  (∀ e ∈ s.map, e.1 ≠ n → s'.mem.lookup e.2.alloc = s.mem.lookup e.2.alloc) ∧
  (envLookup s.map n = none → s'.map = s.map) ∧
  s'.mem.lookup s.environ.alloc = none ∧
  s'.environ = ⟨s.mem.next, 0⟩ ∧
  s'.lastError = s.lastError ∧
  WF s'

theorem unsetenv_tail (s : EnvState) (wf : WF s) (n : EnvName)
    (m1 : Mem) (hm1wf : MemWF m1) (hm1next : m1.next = s.mem.next)
    (hm1other : ∀ i, (∀ old, envLookup s.map n = some old → i ≠ old.alloc) →
      m1.lookup i = s.mem.lookup i)
    (hm1old : ∀ old, envLookup s.map n = some old → m1.lookup old.alloc = none) :
    ∃ s', update_environ { s with mem := m1, map := (envRemove n s.map).1 } = .ok s' ∧
      UnsetenvPost s n s' := by
  obtain ⟨henv1, henv2⟩ := wf.environ_bound
  have henvne : ∀ old, envLookup s.map n = some old → s.environ.alloc ≠ old.alloc := by
    intro old hold
    exact (payload_ne_arr (wf.mapWF.payloads _ (envLookup_mem hold)) wf.environWF.arr).symm
  have harr2 : m1.lookup s.environ.alloc =
      some (.ptrs (s.map.map Prod.snd ++ [Ptr.null])) := by
    rw [hm1other s.environ.alloc henvne]
    exact wf.environWF.arr
  have hmapwf2 : MapWF m1 (envRemove n s.map).1 := by
    refine ⟨envRemove_fst_nodup wf.mapWF.keysNodup, ?_, ?_⟩
    · exact ((envRemove_sublist n s.map).map _).nodup wf.mapWF.idsNodup
    · intro e he
      obtain ⟨hmem, hek⟩ := (mem_envRemove wf.mapWF.keysNodup).mp he
      obtain ⟨h1, h2, h3, h4, w, hw, hl⟩ := wf.mapWF.payloads e hmem
      refine ⟨h1, h2, h3, h4, w, hw, ?_⟩
      rw [hm1other e.2.alloc ?_]
      · exact hl
      · intro old hold heal
        have : e = (n, old) := List.inj_on_of_nodup_map wf.mapWF.idsNodup
          hmem (envLookup_mem hold) heal
        exact hek (by rw [this])
  have hcell : CellOk m1 s.environ := Or.inr ⟨wf.environWF.offset, _, harr2⟩
  obtain ⟨s', hue, hsmap, hsle0, hsenv0, hsnext0, hunch0, hrel0, hmwf, hmapwf0, henvwf0⟩ :=
    update_environ_spec { s with mem := m1, map := (envRemove n s.map).1 }
      hm1wf hmapwf2 hcell
  have hsle : s'.lastError = s.lastError := hsle0
  have hsenv : s'.environ = ⟨s.mem.next, 0⟩ := by
    have h : s'.environ = ⟨m1.next, 0⟩ := hsenv0
    rw [hm1next] at h
    exact h
  have hunch : ∀ i, i ≠ m1.next → i ≠ s.environ.alloc →
      s'.mem.lookup i = m1.lookup i := hunch0
  have hrel : s.environ.isNull = false → s'.mem.lookup s.environ.alloc = none := hrel0
  have hmapwf : MapWF s'.mem (envRemove n s.map).1 := hmapwf0
  have henvwf : EnvironWF s'.mem (envRemove n s.map).1 s'.environ := henvwf0
  refine ⟨s', hue, hsmap, ?_, ?_, ?_, ?_, ?_, ?_, hsenv, hsle, ?_⟩
  · rw [hsmap, envLookup_envRemove wf.mapWF.keysNodup, if_pos rfl]
  · intro k hk
    rw [hsmap, envLookup_envRemove wf.mapWF.keysNodup, if_neg hk]
  · intro old hold
    have hlt : old.alloc < s.mem.next := (wf.payload_bound (envLookup_mem hold)).2
    rw [hunch old.alloc (by omega) (fun h => (henvne old hold) h.symm)]
    exact hm1old old hold
  · intro e hmem hek
    have hlt : e.2.alloc < s.mem.next := (wf.payload_bound hmem).2
    rw [hunch e.2.alloc (by omega) (wf.payload_ne_environ hmem)]
    apply hm1other e.2.alloc
    intro old hold heal
    have : e = (n, old) := List.inj_on_of_nodup_map wf.mapWF.idsNodup
      hmem (envLookup_mem hold) heal
    exact hek (by rw [this])
  · intro habs
    rw [hsmap, envRemove_of_absent habs]
  · exact hrel (Ptr.isNull_false_of_alloc (by omega))
  · refine ⟨hmwf, ?_, ?_⟩
    · rw [hsmap]; exact hmapwf
    · rw [hsmap]; exact henvwf

theorem unsetenv_spec (s : EnvState) (np : Ptr) (n : EnvName) (wf : WF s)
    (hn : s.mem.readStr np = some n) (hne : n ≠ []) (heq : 61 ∉ n) :
    ∃ s', unsetenv s np = .ok (0, s') ∧ UnsetenvPost s n s' := by
  obtain ⟨u, hul, -⟩ := Mem.readStr_lookup hn
  have hnull : np.isNull = false :=
    Ptr.isNull_false_of_alloc (by have := (Mem.lookup_bound wf.memWF hul).1; omega)
  cases hold : envLookup s.map n with
  | none =>
      obtain ⟨s', hue, hpost⟩ := unsetenv_tail s wf n s.mem wf.memWF rfl
        (by intro i _; rfl)
        (by intro old h; rw [hold] at h; cases h)
      refine ⟨s', ?_, hpost⟩
      simp only [unsetenv, hnull, Bool.false_eq_true, if_false, hn, heq,
        not_false_iff, and_self]
      rw [if_pos (show n ≠ [] ∧ True from ⟨hne, trivial⟩)]
      simp only [envRemove_snd, hold]
      rw [hue]
  | some old =>
      obtain ⟨holdoff0, -, -, -, w, hw, holdl0⟩ :=
        wf.mapWF.payloads (n, old) (envLookup_mem hold)
      have holdoff : old.offset = 0 := holdoff0
      have holdl : s.mem.lookup old.alloc = some (.str (envPayload n w)) := holdl0
      have hde : s.mem.dealloc old =
          some (Mem.mk (removeId old.alloc s.mem.heap) s.mem.next) :=
        Mem.dealloc_some holdl holdoff
      have hm1wf : MemWF (Mem.mk (removeId old.alloc s.mem.heap) s.mem.next) :=
        wf.memWF.removeId_wf _
      have hm1look : ∀ i, (Mem.mk (removeId old.alloc s.mem.heap) s.mem.next).lookup i =
          if i = old.alloc then none else s.mem.lookup i :=
        lookup_after_removeId wf.memWF _
      obtain ⟨s', hue, hpost⟩ := unsetenv_tail s wf n
        (Mem.mk (removeId old.alloc s.mem.heap) s.mem.next) hm1wf rfl
        (by
          intro i hi
          rw [hm1look, if_neg (hi old hold)])
        (by
          intro old2 h
          rw [hold] at h
          have h2 : old2 = old := (Option.some_injective _ h).symm
          subst h2
          rw [hm1look, if_pos rfl])
      refine ⟨s', ?_, hpost⟩
      simp only [unsetenv, hnull, Bool.false_eq_true, if_false, hn, heq,
        not_false_iff, and_self]
      rw [if_pos (show n ≠ [] ∧ True from ⟨hne, trivial⟩)]
      simp only [envRemove_snd, hold, hde]
      rw [hue]

/-- Invalid names: a null pointer, an empty name, or a name containing the
equals sign make `setenv` fail with `EINVAL` without reading the value and
without mutating anything but the last-error slot. -/
theorem setenv_invalid (s : EnvState) (np vp : Ptr)
    (h : np.isNull = true ∨ ∃ n, s.mem.readStr np = some n ∧ (n = [] ∨ 61 ∈ n)) :
    setenv s np vp = .ok (-1, setLastError s .EINVAL) := by
  cases hnb : np.isNull with
  | true => simp [setenv, hnb]
  | false =>
      rcases h with h | ⟨n, hn, hbad⟩
      · rw [hnb] at h; cases h
      · have hcond : ¬ (n ≠ [] ∧ 61 ∉ n) := by
          rcases hbad with h | h
          · intro hc; exact hc.1 h
          · intro hc; exact hc.2 h
        simp only [setenv, hnb, Bool.false_eq_true, if_false, hn]
        rw [if_neg hcond]

theorem unsetenv_invalid (s : EnvState) (np : Ptr)
    (h : np.isNull = true ∨ ∃ n, s.mem.readStr np = some n ∧ (n = [] ∨ 61 ∈ n)) :
    unsetenv s np = .ok (-1, setLastError s .EINVAL) := by
  cases hnb : np.isNull with
  | true => simp [unsetenv, hnb]
  | false =>
      rcases h with h | ⟨n, hn, hbad⟩
      · rw [hnb] at h; cases h
      · have hcond : ¬ (n ≠ [] ∧ 61 ∉ n) := by
          rcases hbad with h | h
          · intro hc; exact hc.1 h
          · intro hc; exact hc.2 h
        simp only [unsetenv, hnb, Bool.false_eq_true, if_false, hn]
        rw [if_neg hcond]

/-- A config entry whose name and value the shim can install faithfully. -/
def ValidEntry (e : EnvName × EnvName) : Prop :=
  e.1 ≠ [] ∧ 0 ∉ e.1 ∧ 61 ∉ e.1 ∧ 0 ∉ e.2

theorem foldl_pres {α σ : Type} (Inv : σ → Prop) (P : α → Prop) (step : σ → α → σ)
    (hstep : ∀ st a, Inv st → P a → Inv (step st a)) :
    ∀ (l : List α) (st : σ), Inv st → (∀ a ∈ l, P a) → Inv (l.foldl step st) := by
  intro l
  induction l with
  | nil => intro st h _; exact h
  | cons a rest ih =>
      intro st h hall
      exact ih _ (hstep st a h (hall a (List.mem_cons_self _ _)))
        (fun b hb => hall b (List.mem_cons_of_mem _ hb))

theorem add_env_var_pres (s : EnvState) (hm : MemWF s.mem) (hmap : MapWF s.mem s.map)
    (k v : EnvName) (hval : ValidEntry (k, v)) :
    MemWF (add_env_var s k v).mem ∧ MapWF (add_env_var s k v).mem (add_env_var s k v).map := by
  obtain ⟨hne, h0, h61, h0v⟩ := hval
  have hids : ∀ x ∈ s.map.map (fun e => e.2.alloc), x < s.mem.next := by
    intro x hx
    rcases List.mem_map.mp hx with ⟨e, he, hxe⟩
    obtain ⟨-, -, -, -, w, -, hl⟩ := hmap.payloads e he
    rw [← hxe]
    exact (Mem.lookup_bound hm hl).2
  constructor
  · exact hm.alloc _
  · refine ⟨envInsert_fst_nodup hmap.keysNodup, ?_, ?_⟩
    · exact envInsert_ids_nodup hmap.idsNodup
        (fun h => absurd (hids _ h) (lt_irrefl _))
    · intro e he
      rcases (mem_envInsert hmap.keysNodup).mp he with h | ⟨hmem, -⟩
      · subst h
        refine ⟨rfl, hne, h0, h61, v, h0v, ?_⟩
        show (s.mem.alloc _).2.lookup s.mem.next = _
        rw [Mem.lookup_alloc, if_pos rfl]
      · obtain ⟨h1, h2, h3, h4, w, hw, hl⟩ := hmap.payloads e hmem
        refine ⟨h1, h2, h3, h4, w, hw, ?_⟩
        show (s.mem.alloc _).2.lookup e.2.alloc = _
        rw [Mem.lookup_alloc,
          if_neg (fun hh : e.2.alloc = s.mem.next => by
            rw [hh, Mem.lookup_next_none hm] at hl; cases hl)]
        exact hl

theorem env_init_spec (communicate : Bool) (forwarded : List EnvName)
    (hostEnv setVars : List (EnvName × EnvName))
    (hhost : ∀ e ∈ hostEnv, ValidEntry e) (hset : ∀ e ∈ setVars, ValidEntry e) :
    ∃ s', env_init communicate forwarded hostEnv setVars = .ok s' ∧ WF s' ∧
      s'.environ ≠ Ptr.null := by
  have hInv0 : MemWF (Mem.empty) ∧
      MapWF Mem.empty ([] : List (EnvName × Ptr)) := by
    refine ⟨⟨List.nodup_nil, ?_, Nat.one_pos⟩, ⟨List.nodup_nil, List.nodup_nil, ?_⟩⟩
    · intro i hi; cases hi
    · intro e he; cases he
  set s0 : EnvState :=
    { mem := Mem.empty, map := [], environ := Ptr.null, lastError := none } with hs0
  have hstep1 : ∀ (st : EnvState) (e : EnvName × EnvName),
      (MemWF st.mem ∧ MapWF st.mem st.map) → ValidEntry e →
      MemWF ((if communicate || e.1 ∈ forwarded then add_env_var st e.1 e.2 else st)).mem ∧
      MapWF ((if communicate || e.1 ∈ forwarded then add_env_var st e.1 e.2 else st)).mem
        ((if communicate || e.1 ∈ forwarded then add_env_var st e.1 e.2 else st)).map := by
    intro st e hinv hval
    by_cases hc : communicate || e.1 ∈ forwarded
    · rw [if_pos hc]
      exact add_env_var_pres st hinv.1 hinv.2 e.1 e.2
        (by obtain ⟨a, b, c, d⟩ := hval; exact ⟨a, b, c, d⟩)
    · rw [if_neg hc]; exact hinv
  have hstep2 : ∀ (st : EnvState) (e : EnvName × EnvName),
      (MemWF st.mem ∧ MapWF st.mem st.map) → ValidEntry e →
      MemWF (add_env_var st e.1 e.2).mem ∧
      MapWF (add_env_var st e.1 e.2).mem (add_env_var st e.1 e.2).map := by
    intro st e hinv hval
    exact add_env_var_pres st hinv.1 hinv.2 e.1 e.2
      (by obtain ⟨a, b, c, d⟩ := hval; exact ⟨a, b, c, d⟩)
  have hInv1 : ∀ s1, (MemWF s1.mem ∧ MapWF s1.mem s1.map) →
      MemWF (setVars.foldl (fun s e => add_env_var s e.1 e.2) s1).mem ∧
      MapWF (setVars.foldl (fun s e => add_env_var s e.1 e.2) s1).mem
        (setVars.foldl (fun s e => add_env_var s e.1 e.2) s1).map := by
    intro s1 h
    exact foldl_pres (fun st => MemWF st.mem ∧ MapWF st.mem st.map) ValidEntry _
      hstep2 setVars s1 h hset
  have hInvFold : MemWF (if communicate || forwarded ≠ [] then
        hostEnv.foldl (fun s e =>
          if communicate || e.1 ∈ forwarded then add_env_var s e.1 e.2 else s) s0
      else s0).mem ∧
      MapWF (if communicate || forwarded ≠ [] then
        hostEnv.foldl (fun s e =>
          if communicate || e.1 ∈ forwarded then add_env_var s e.1 e.2 else s) s0
      else s0).mem
      (if communicate || forwarded ≠ [] then
        hostEnv.foldl (fun s e =>
          if communicate || e.1 ∈ forwarded then add_env_var s e.1 e.2 else s) s0
      else s0).map := by
    by_cases hc : communicate || forwarded ≠ []
    · rw [if_pos hc]
      exact foldl_pres (fun st => MemWF st.mem ∧ MapWF st.mem st.map) ValidEntry _
        hstep1 hostEnv s0 hInv0 hhost
    · rw [if_neg hc]
      exact hInv0
  obtain ⟨hm2, hmap2⟩ := hInv1 _ hInvFold
  set s2 := setVars.foldl (fun s e => add_env_var s e.1 e.2)
    (if communicate || forwarded ≠ [] then
      hostEnv.foldl (fun s e =>
        if communicate || e.1 ∈ forwarded then add_env_var s e.1 e.2 else s) s0
    else s0) with hs2
  have hcell : CellOk ({ s2 with environ := Ptr.null } : EnvState).mem
      ({ s2 with environ := Ptr.null } : EnvState).environ := Or.inl rfl
  obtain ⟨s', hue, hsmap, hsle0, hsenv0, hsnext0, hunch0, hrel0, hmwf, hmapwf0, henvwf0⟩ :=
    update_environ_spec { s2 with environ := Ptr.null } hm2 hmap2 hcell
  refine ⟨s', ?_, ⟨hmwf, ?_, ?_⟩, ?_⟩
  · show update_environ { s2 with environ := Ptr.null } = .ok s'
    exact hue
  · rw [hsmap]; exact hmapwf0
  · rw [hsmap]; exact henvwf0
  · have h : s'.environ = ⟨s2.mem.next, 0⟩ := hsenv0
    rw [h]
    exact Ptr.ne_null_of_alloc (by have := hm2.pos; simp only; omega)

/-- The spec's statement of the `environ` invariant: the cell points at a
live array holding exactly one pointer per map entry plus a null sentinel,
and every payload C-string begins with `name=`. -/
def environ_inv (s : EnvState) : Prop :=
  s.environ.offset = 0 ∧
  s.mem.lookup s.environ.alloc = some (.ptrs (s.map.map Prod.snd ++ [Ptr.null])) ∧
  ∀ e ∈ s.map, ∃ t, s.mem.readStr e.2 = some (e.1 ++ 61 :: t)

theorem payload_readStr {m : Mem} {k : EnvName} {p : Ptr} (hp : payloadOk m k p) :
    ∃ v, 0 ∉ v ∧ m.readStr p = some (k ++ 61 :: v) := by
  obtain ⟨hoff, hne, h0, h61, v, hv, hl⟩ := hp
  refine ⟨v, hv, ?_⟩
  rw [Mem.readStr_str hl, hoff, List.drop_zero]
  have heq : envPayload k v = (k ++ 61 :: v) ++ 0 :: [] := by simp [envPayload]
  rw [heq, takeUntilNull_append]
  intro hmem
  rcases List.mem_append.mp hmem with h | h
  · exact h0 h
  · rcases List.mem_cons.mp h with h | h
    · cases h
    · exact hv h

theorem WF.to_environ_inv {s : EnvState} (wf : WF s) : environ_inv s := by
  refine ⟨wf.environWF.offset, wf.environWF.arr, ?_⟩
  intro e he
  obtain ⟨v, -, hv⟩ := payload_readStr (wf.mapWF.payloads e he)
  exact ⟨v, hv⟩

theorem drop_payload (k t : List Nat) : (k ++ 61 :: t).drop (k.length + 1) = t := by
  have h : k ++ 61 :: t = (k ++ [61]) ++ t := by simp
  have h2 : k.length + 1 = (k ++ [61]).length := by simp
  rw [h, h2, List.drop_left]

theorem setenv_value_memErr (s : EnvState) (np vp : Ptr) (n : EnvName)
    (hnull : np.isNull = false) (hn : s.mem.readStr np = some n)
    (hne : n ≠ []) (heq : 61 ∉ n) (hv : s.mem.readStr vp = none) :
    setenv s np vp = .error .memErr := by
  simp only [setenv, hnull, Bool.false_eq_true, if_false, hn, heq,
    not_false_iff, and_self]
  rw [if_pos (show n ≠ [] ∧ True from ⟨hne, trivial⟩)]
  simp [hv]

theorem setenv_name_memErr (s : EnvState) (np vp : Ptr)
    (hnull : np.isNull = false) (hn : s.mem.readStr np = none) :
    setenv s np vp = .error .memErr := by
  simp [setenv, hnull, hn]

theorem unsetenv_name_memErr (s : EnvState) (np : Ptr)
    (hnull : np.isNull = false) (hn : s.mem.readStr np = none) :
    unsetenv s np = .error .memErr := by
  simp [unsetenv, hnull, hn]

deriving instance DecidableEq for Except

/-- Concrete Unix state: name string `A` at allocation 1, value string `1` at
allocation 2, empty map, `environ` array at allocation 3. -/
def unixState : EnvState :=
  ⟨⟨[(1, .str [65, 0]), (2, .str [49, 0]), (3, .ptrs [Ptr.null])], 4⟩, [], ⟨3, 0⟩, none⟩

theorem unixState_wf : WF unixState := by
  refine ⟨⟨by decide, by decide, by decide⟩, ⟨by decide, by decide, ?_⟩, ⟨rfl, by decide⟩⟩
  intro e he
  exact absurd he (List.not_mem_nil e)

/-- The state `unixState` reaches after `setenv("A", "1")`: payload `A=1` at
allocation 4, fresh `environ` array at allocation 5, old array released. -/
def unixState2 : EnvState :=
  ⟨⟨[(5, .ptrs [⟨4, 0⟩, Ptr.null]), (4, .str [65, 61, 49, 0]),
     (1, .str [65, 0]), (2, .str [49, 0])], 6⟩, [([65], ⟨4, 0⟩)], ⟨5, 0⟩, none⟩

theorem unixState2_wf : WF unixState2 := by
  refine ⟨⟨by decide, by decide, by decide⟩, ⟨by decide, by decide, ?_⟩, ⟨rfl, by decide⟩⟩
  intro e he
  have h := List.mem_singleton.mp he
  subst h
  exact ⟨rfl, by decide, by decide, by decide, [49], by decide, by decide⟩

/-- C1: on a Unix target, after a successful `setenv` of name `n` to value
`v`, a `getenv` of `n` returns the payload pointer offset past the `n=`
prefix, which is non-null and dereferences to exactly the bytes of `v`
followed by the null terminator; `getenv` of any name absent from the map
returns the null pointer. -/
theorem getenv_after_setenv :
    (∀ (s s' : EnvState) (np vp np2 : Ptr) (n v : EnvName), WF s →
      s.mem.readStr np = some n → s.mem.readStr vp = some v →
      setenv s np vp = .ok (0, s') →
      s'.mem.readStr np2 = some n →
      ∃ q, envLookup s'.map n = some q ∧
        getenv s' np2 = .ok ⟨q.alloc, q.offset + (n.length + 1)⟩ ∧
        (⟨q.alloc, q.offset + (n.length + 1)⟩ : Ptr) ≠ Ptr.null ∧
        s'.mem.readStr ⟨q.alloc, q.offset + (n.length + 1)⟩ = some v) ∧
    (∀ (s : EnvState) (np : Ptr) (n : EnvName),
      s.mem.readStr np = some n → envLookup s.map n = none →
      getenv s np = .ok Ptr.null) := by
  constructor
  · intro s s' np vp np2 n v wf hn hv hset hn2
    by_cases hval : n ≠ [] ∧ 61 ∉ n
    · obtain ⟨s'', hok, hpost⟩ := setenv_spec s np vp n v wf hn hv hval.1 hval.2
      rw [hok] at hset
      simp only [Except.ok.injEq, Prod.mk.injEq, true_and] at hset
      subst hset
      obtain ⟨-, hlk, -, hpay, -, -, -, -, -, wf'⟩ := hpost
      have h0v : 0 ∉ v := Mem.readStr_no_zero hv
      refine ⟨⟨s.mem.next, 0⟩, hlk, ?_, ?_, ?_⟩
      · simp [getenv, hn2, hlk]
      · exact Ptr.ne_null_of_alloc (by have := wf.memWF.pos; simp only; omega)
      · have hdrop : (envPayload n v).drop (n.length + 1) = v ++ [0] := by
          unfold envPayload
          have hassoc : n ++ 61 :: v ++ [0] = n ++ 61 :: (v ++ [0]) := by simp
          rw [hassoc]
          exact drop_payload n (v ++ [0])
        have hread : s''.mem.readStr ⟨s.mem.next, n.length + 1⟩ =
            takeUntilNull ((envPayload n v).drop (n.length + 1)) :=
          Mem.readStr_str hpay
        show s''.mem.readStr ⟨s.mem.next, 0 + (n.length + 1)⟩ = some v
        rw [Nat.zero_add, hread, hdrop]
        exact takeUntilNull_append h0v
    · have hbad : n = [] ∨ 61 ∈ n := by
        by_cases h1 : n = []
        · exact Or.inl h1
        · right
          by_contra h2
          exact hval ⟨h1, h2⟩
      rw [setenv_invalid s np vp (Or.inr ⟨n, hn, hbad⟩)] at hset
      simp at hset
  · intro s np n hn habs
    simp [getenv, hn, habs]

theorem getenv_after_setenv_witness :
    (∃ q, envLookup unixState2.map [65] = some q ∧
      getenv unixState2 ⟨1, 0⟩ = .ok ⟨q.alloc, q.offset + (([65] : EnvName).length + 1)⟩ ∧
      (⟨q.alloc, q.offset + (([65] : EnvName).length + 1)⟩ : Ptr) ≠ Ptr.null ∧
      unixState2.mem.readStr ⟨q.alloc, q.offset + (([65] : EnvName).length + 1)⟩ = some [49]) ∧
    getenv unixState ⟨1, 0⟩ = .ok Ptr.null :=
  ⟨getenv_after_setenv.1 unixState unixState2 ⟨1, 0⟩ ⟨2, 0⟩ ⟨1, 0⟩ [65] [49]
      unixState_wf (by decide) (by decide) (by decide) (by decide),
    getenv_after_setenv.2 unixState ⟨1, 0⟩ [65] (by decide) (by decide)⟩

/-- C4: `setenv` with a null, empty, or equals-containing name sets `EINVAL`
and returns -1 leaving memory, map and `environ` cell untouched; with a valid
name it allocates a fresh payload, inserts it releasing any prior payload for
that name, rebuilds `environ`, and returns 0. -/
theorem setenv_validation_and_success :
    (∀ (s : EnvState) (np vp : Ptr),
      (np.isNull = true ∨ ∃ n, s.mem.readStr np = some n ∧ (n = [] ∨ 61 ∈ n)) →
      setenv s np vp = .ok (-1, setLastError s .EINVAL) ∧
      (setLastError s ErrCode.EINVAL).map = s.map ∧
      (setLastError s ErrCode.EINVAL).environ = s.environ ∧
      (setLastError s ErrCode.EINVAL).mem = s.mem) ∧
    (∀ (s : EnvState) (np vp : Ptr) (n v : EnvName), WF s →
      s.mem.readStr np = some n → s.mem.readStr vp = some v →
      n ≠ [] → 61 ∉ n →
      ∃ s', setenv s np vp = .ok (0, s') ∧ SetenvPost s n v s') :=
  ⟨fun s np vp h => ⟨setenv_invalid s np vp h, rfl, rfl, rfl⟩,
    fun s np vp n v wf hn hv hne heq => setenv_spec s np vp n v wf hn hv hne heq⟩

theorem setenv_validation_and_success_witness :
    (setenv unixState Ptr.null ⟨2, 0⟩ = .ok (-1, setLastError unixState .EINVAL) ∧
      (setLastError unixState ErrCode.EINVAL).map = unixState.map ∧
      (setLastError unixState ErrCode.EINVAL).environ = unixState.environ ∧
      (setLastError unixState ErrCode.EINVAL).mem = unixState.mem) ∧
    (∃ s', setenv unixState ⟨1, 0⟩ ⟨2, 0⟩ = .ok (0, s') ∧
      SetenvPost unixState [65] [49] s') :=
  ⟨setenv_validation_and_success.1 unixState Ptr.null ⟨2, 0⟩ (Or.inl (by decide)),
    setenv_validation_and_success.2 unixState ⟨1, 0⟩ ⟨2, 0⟩ [65] [49]
      unixState_wf (by decide) (by decide) (by decide) (by decide)⟩

/-- C6: `unsetenv` with a valid name returns 0 whether or not the name was
present: when present the entry is removed, its payload released and
`environ` rebuilt; when absent the map is unchanged and the call still
succeeds; with an invalid name it sets `EINVAL` and returns -1. -/
theorem unsetenv_validation_and_success :
    (∀ (s : EnvState) (np : Ptr),
      (np.isNull = true ∨ ∃ n, s.mem.readStr np = some n ∧ (n = [] ∨ 61 ∈ n)) →
      unsetenv s np = .ok (-1, setLastError s .EINVAL)) ∧
    (∀ (s : EnvState) (np : Ptr) (n : EnvName), WF s →
      s.mem.readStr np = some n → n ≠ [] → 61 ∉ n →
      ∃ s', unsetenv s np = .ok (0, s') ∧ UnsetenvPost s n s') :=
  ⟨fun s np h => unsetenv_invalid s np h,
    fun s np n wf hn hne heq => unsetenv_spec s np n wf hn hne heq⟩

theorem unsetenv_validation_and_success_witness :
    unsetenv unixState Ptr.null = .ok (-1, setLastError unixState .EINVAL) ∧
    (∃ s', unsetenv unixState2 ⟨1, 0⟩ = .ok (0, s') ∧ UnsetenvPost unixState2 [65] s') :=
  ⟨unsetenv_validation_and_success.1 unixState Ptr.null (Or.inl (by decide)),
    unsetenv_validation_and_success.2 unixState2 ⟨1, 0⟩ [65] unixState2_wf
      (by decide) (by decide) (by decide)⟩

/-- C10: when the name is null, empty or contains the equals sign, `setenv`
never reads the value: it returns -1 with `EINVAL` for every value pointer,
including pointers that cannot be read at all. -/
theorem setenv_invalid_name_ignores_value :
    ∀ (s : EnvState) (np vp : Ptr),
      (np.isNull = true ∨ ∃ n, s.mem.readStr np = some n ∧ (n = [] ∨ 61 ∈ n)) →
      setenv s np vp = .ok (-1, setLastError s .EINVAL) :=
  fun s np vp h => setenv_invalid s np vp h

/-- Concrete state whose allocation 1 reads as the invalid name `a=b`. -/
def badNameState : EnvState :=
  ⟨⟨[(1, .str [97, 61, 98, 0])], 2⟩, [], Ptr.null, none⟩

theorem setenv_invalid_name_ignores_value_witness :
    setenv badNameState ⟨1, 0⟩ ⟨9, 0⟩ = .ok (-1, setLastError badNameState .EINVAL) ∧
    badNameState.mem.readStr ⟨9, 0⟩ = none :=
  ⟨setenv_invalid_name_ignores_value badNameState ⟨1, 0⟩ ⟨9, 0⟩
      (Or.inr ⟨[97, 61, 98], by decide, Or.inr (by decide)⟩),
    by decide⟩

/-- C2: after every mutation (`setenv`, `unsetenv`, `init`) from a
well-formed state, the `environ` cell points to a live array holding exactly
one pointer per map entry followed by a single null sentinel, every payload
C-string begins with `name=`, and a successful mutation releases the
previous array and installs a fresh one. -/
theorem environ_consistency :
    (∀ (s s' : EnvState) (np vp : Ptr) (r : Int), WF s →
      setenv s np vp = .ok (r, s') →
      environ_inv s' ∧
      (r = 0 → s'.mem.lookup s.environ.alloc = none ∧ s'.environ ≠ s.environ)) ∧
    (∀ (s s' : EnvState) (np : Ptr) (r : Int), WF s →
      unsetenv s np = .ok (r, s') →
      environ_inv s' ∧
      (r = 0 → s'.mem.lookup s.environ.alloc = none ∧ s'.environ ≠ s.environ)) ∧
    (∀ (communicate : Bool) (forwarded : List EnvName)
      (hostEnv setVars : List (EnvName × EnvName)) (s' : EnvState),
      (∀ e ∈ hostEnv, ValidEntry e) → (∀ e ∈ setVars, ValidEntry e) →
      env_init communicate forwarded hostEnv setVars = .ok s' →
      environ_inv s') := by
  refine ⟨?_, ?_, ?_⟩
  · intro s s' np vp r wf hset
    by_cases hnull : np.isNull = true
    · rw [setenv_invalid s np vp (Or.inl hnull)] at hset
      simp only [Except.ok.injEq, Prod.mk.injEq] at hset
      obtain ⟨hr, hs⟩ := hset
      subst hs
      exact ⟨wf.to_environ_inv, fun h0 => absurd (hr.trans h0) (by decide)⟩
    · have hnf : np.isNull = false := by revert hnull; cases np.isNull <;> simp
      cases hnr : s.mem.readStr np with
      | none => rw [setenv_name_memErr s np vp hnf hnr] at hset; cases hset
      | some n =>
          by_cases hval : n ≠ [] ∧ 61 ∉ n
          · cases hvr : s.mem.readStr vp with
            | none =>
                rw [setenv_value_memErr s np vp n hnf hnr hval.1 hval.2 hvr] at hset
                cases hset
            | some v =>
                obtain ⟨s'', hok, hpost⟩ := setenv_spec s np vp n v wf hnr hvr hval.1 hval.2
                rw [hok] at hset
                simp only [Except.ok.injEq, Prod.mk.injEq] at hset
                obtain ⟨hr, hs⟩ := hset
                subst hs
                obtain ⟨-, -, -, -, -, -, hrel, henvfresh, -, wf'⟩ := hpost
                refine ⟨wf'.to_environ_inv, fun _ => ⟨hrel, ?_⟩⟩
                intro heqenv
                have h1 : s.environ.alloc < s.mem.next := (wf.environ_bound).2
                rw [henvfresh] at heqenv
                have h2 := congrArg Ptr.alloc heqenv
                simp only at h2
                omega
          · have hbad : n = [] ∨ 61 ∈ n := by
              by_cases h1 : n = []
              · exact Or.inl h1
              · right
                by_contra h2
                exact hval ⟨h1, h2⟩
            rw [setenv_invalid s np vp (Or.inr ⟨n, hnr, hbad⟩)] at hset
            simp only [Except.ok.injEq, Prod.mk.injEq] at hset
            obtain ⟨hr, hs⟩ := hset
            subst hs
            exact ⟨wf.to_environ_inv, fun h0 => absurd (hr.trans h0) (by decide)⟩
  · intro s s' np r wf hset
    by_cases hnull : np.isNull = true
    · rw [unsetenv_invalid s np (Or.inl hnull)] at hset
      simp only [Except.ok.injEq, Prod.mk.injEq] at hset
      obtain ⟨hr, hs⟩ := hset
      subst hs
      exact ⟨wf.to_environ_inv, fun h0 => absurd (hr.trans h0) (by decide)⟩
    · have hnf : np.isNull = false := by revert hnull; cases np.isNull <;> simp
      cases hnr : s.mem.readStr np with
      | none => rw [unsetenv_name_memErr s np hnf hnr] at hset; cases hset
      | some n =>
          by_cases hval : n ≠ [] ∧ 61 ∉ n
          · obtain ⟨s'', hok, hpost⟩ := unsetenv_spec s np n wf hnr hval.1 hval.2
            rw [hok] at hset
            simp only [Except.ok.injEq, Prod.mk.injEq] at hset
            obtain ⟨hr, hs⟩ := hset
            subst hs
            obtain ⟨-, -, -, -, -, -, hrel, henvfresh, -, wf'⟩ := hpost
            refine ⟨wf'.to_environ_inv, fun _ => ⟨hrel, ?_⟩⟩
            intro heqenv
            have h1 : s.environ.alloc < s.mem.next := (wf.environ_bound).2
            rw [henvfresh] at heqenv
            have h2 := congrArg Ptr.alloc heqenv
            simp only at h2
            omega
          · have hbad : n = [] ∨ 61 ∈ n := by
              by_cases h1 : n = []
              · exact Or.inl h1
              · right
                by_contra h2
                exact hval ⟨h1, h2⟩
            rw [unsetenv_invalid s np (Or.inr ⟨n, hnr, hbad⟩)] at hset
            simp only [Except.ok.injEq, Prod.mk.injEq] at hset
            obtain ⟨hr, hs⟩ := hset
            subst hs
            exact ⟨wf.to_environ_inv, fun h0 => absurd (hr.trans h0) (by decide)⟩
  · intro communicate forwarded hostEnv setVars s' hhost hset hinit
    obtain ⟨s'', hok, hwf, -⟩ := env_init_spec communicate forwarded hostEnv setVars hhost hset
    rw [hok] at hinit
    have hs : s'' = s' := by
      simp only [Except.ok.injEq] at hinit
      exact hinit
    subst hs
    exact hwf.to_environ_inv

theorem environ_consistency_witness :
    environ_inv unixState2 ∧
    ((0 : Int) = 0 → unixState2.mem.lookup unixState.environ.alloc = none ∧
      unixState2.environ ≠ unixState.environ) :=
  environ_consistency.1 unixState unixState2 ⟨1, 0⟩ ⟨2, 0⟩ 0 unixState_wf (by decide)

/-! ### Windows-family operations -/

/-- Modelled from the spec: `windows_check_buffer_size` is a miri helper not
under src/; per the spec, on success the count of characters written without
the terminator is returned, on failure the required count including the
terminator. -/
def windows_check_buffer_size (success : Bool) (len : Nat) : Nat :=
  if success then len - 1 else len

/-- Modelled from the spec: `write_os_str_to_wide_str` (truncation disabled)
is a miri helper not under src/; per the spec it writes the string plus a
null terminator when the buffer has room for them, writes nothing otherwise,
and reports success together with the required length in characters
including the terminator. -/
def write_os_str_to_wide_str (m : Mem) (v : List Nat) (buf : Ptr) (size : Nat) :
    Option (Bool × Nat × Mem) :=
  if v.length + 1 ≤ size then
    (m.writeUnits buf (v ++ [0])).map (fun m2 => (true, v.length + 1, m2))
  else some (false, v.length + 1, m)

/-- `GetEnvironmentVariableW`: look the wide name up; on a miss set
`ERROR_ENVVAR_NOT_FOUND` and return 0; on a hit read the value past the
`name=` prefix and write it to the buffer without truncation, returning the
count written (or required, when the buffer is too small). -/
def GetEnvironmentVariableW (s : EnvState) (name_ptr buf_ptr : Ptr) (buf_size : Nat) :
    Except Halt (Nat × EnvState) :=
  match s.mem.readStr name_ptr with
  | none => .error .memErr
  | some name =>
      match envLookup s.map name with
      | some var_ptr =>
          match s.mem.readStr ⟨var_ptr.alloc, var_ptr.offset + (name.length + 1)⟩ with
          | none => .error .memErr
          | some var =>
              match write_os_str_to_wide_str s.mem var buf_ptr buf_size with
              | none => .error .memErr
              | some r => .ok (windows_check_buffer_size r.1 r.2.1, { s with mem := r.2.2 })
      | none => .ok (0, setLastError s .ERROR_ENVVAR_NOT_FOUND)

/-- Read every stored payload string in map order (the loop over
`env_vars.map.values`). -/
def readAll (m : Mem) : List (EnvName × Ptr) → Option (List (List Nat))
  | [] => some []
  | e :: rest =>
      match m.readStr e.2, readAll m rest with
      | some w, some ws => some (w :: ws)
      | _, _ => none

/-- `GetEnvironmentStringsW`: read every stored payload in map order
(each read yields the full `name=value` string, starting at the payload
pointer), concatenate them each followed by a null unit, and allocate the
block with one more terminating null unit. -/
def GetEnvironmentStringsW (s : EnvState) : Except Halt (Ptr × EnvState) :=
  match readAll s.mem s.map with
  | none => .error .memErr
  | some pieces =>
      let block := pieces.foldl (fun acc w => acc ++ w ++ [0]) []
      let r := s.mem.alloc (.str (block ++ [0]))
      .ok (r.1, { s with mem := r.2 })

/-- `SetEnvironmentVariableW`: a null name is an undefined-behavior
diagnostic; an empty name or one containing the equals sign is an
unsupported-operation diagnostic; a null value deletes the entry (releasing
its payload) and returns TRUE; otherwise a fresh wide payload is allocated
and inserted, releasing any replaced payload, and TRUE is returned. -/
def SetEnvironmentVariableW (s : EnvState) (name_ptr value_ptr : Ptr) :
    Except Halt (Int × EnvState) :=
  if name_ptr.isNull then .error .ub
  else
    match s.mem.readStr name_ptr with
    | none => .error .memErr
    | some name =>
        if name = [] then .error .unsup
        else if 61 ∈ name then .error .unsup
        else if value_ptr.isNull then
          let rm := envRemove name s.map
          match rm.2 with
          | some old =>
              match s.mem.dealloc old with
              | none => .error .memErr
              | some m1 => .ok (1, { s with mem := m1, map := rm.1 })
          | none => .ok (1, { s with map := rm.1 })
        else
          match s.mem.readStr value_ptr with
          | none => .error .memErr
          | some value =>
              let r := alloc_env_var_as_wide_str name value s.mem
              let ins := envInsert name r.1 s.map
              match ins.2 with
              | some old =>
                  match r.2.dealloc old with
                  | none => .error .memErr
                  | some m2 => .ok (1, { s with mem := m2, map := ins.1 })
              | none => .ok (1, { s with mem := r.2, map := ins.1 })

/-- C5: `GetEnvironmentVariableW` on a miss sets `ERROR_ENVVAR_NOT_FOUND` and
returns 0; on a hit with a large enough buffer it writes the value with a
terminator and returns the character count without the terminator; with a
too-small buffer it writes nothing (state unchanged, no truncation) and
returns the required count including the terminator. -/
theorem GetEnvironmentVariableW_cases :
    (∀ (s : EnvState) (np bp : Ptr) (sz : Nat) (n : EnvName),
      s.mem.readStr np = some n → envLookup s.map n = none →
      GetEnvironmentVariableW s np bp sz =
        .ok (0, setLastError s .ERROR_ENVVAR_NOT_FOUND)) ∧
    (∀ (s : EnvState) (np bp : Ptr) (sz : Nat) (n : EnvName) (q : Ptr)
      (v : List Nat) (m2 : Mem),
      s.mem.readStr np = some n → envLookup s.map n = some q →
      s.mem.readStr ⟨q.alloc, q.offset + (n.length + 1)⟩ = some v →
      v.length + 1 ≤ sz →
      s.mem.writeUnits bp (v ++ [0]) = some m2 →
      GetEnvironmentVariableW s np bp sz = .ok (v.length, { s with mem := m2 })) ∧
    (∀ (s : EnvState) (np bp : Ptr) (sz : Nat) (n : EnvName) (q : Ptr) (v : List Nat),
      s.mem.readStr np = some n → envLookup s.map n = some q →
      s.mem.readStr ⟨q.alloc, q.offset + (n.length + 1)⟩ = some v →
      sz < v.length + 1 →
      GetEnvironmentVariableW s np bp sz = .ok (v.length + 1, s)) := by
  refine ⟨?_, ?_, ?_⟩
  · intro s np bp sz n hn habs
    simp [GetEnvironmentVariableW, hn, habs]
  · intro s np bp sz n q v m2 hn hq hv hle hw
    simp [GetEnvironmentVariableW, hn, hq, hv, write_os_str_to_wide_str, hle, hw,
      windows_check_buffer_size]
  · intro s np bp sz n q v hn hq hv hlt
    have hnle : ¬ (v.length + 1 ≤ sz) := by omega
    simp [GetEnvironmentVariableW, hn, hq, hv, write_os_str_to_wide_str, hnle,
      windows_check_buffer_size]

/-- Windows state: payload `A=hello` at allocation 1, name string `A` at 2,
a six-unit buffer at 3, name string `B` at 4. -/
def winState : EnvState :=
  ⟨⟨[(1, .str [65, 61, 104, 101, 108, 108, 111, 0]), (2, .str [65, 0]),
     (3, .str [0, 0, 0, 0, 0, 0]), (4, .str [66, 0])], 5⟩,
   [([65], ⟨1, 0⟩)], Ptr.null, none⟩

/-- The memory of `winState` after `hello` plus terminator is written into
the buffer at allocation 3. -/
def winMem2 : Mem :=
  ⟨[(1, .str [65, 61, 104, 101, 108, 108, 111, 0]), (2, .str [65, 0]),
    (3, .str [104, 101, 108, 108, 111, 0]), (4, .str [66, 0])], 5⟩

theorem GetEnvironmentVariableW_cases_witness :
    GetEnvironmentVariableW winState ⟨4, 0⟩ ⟨3, 0⟩ 6 =
      .ok (0, setLastError winState .ERROR_ENVVAR_NOT_FOUND) ∧
    GetEnvironmentVariableW winState ⟨2, 0⟩ ⟨3, 0⟩ 6 =
      .ok (5, { winState with mem := winMem2 }) ∧
    GetEnvironmentVariableW winState ⟨2, 0⟩ ⟨3, 0⟩ 5 = .ok (6, winState) :=
  ⟨GetEnvironmentVariableW_cases.1 winState ⟨4, 0⟩ ⟨3, 0⟩ 6 [66] (by decide) (by decide),
    GetEnvironmentVariableW_cases.2.1 winState ⟨2, 0⟩ ⟨3, 0⟩ 6 [65] ⟨1, 0⟩
      [104, 101, 108, 108, 111] winMem2 (by decide) (by decide) (by decide)
      (by decide) (by decide),
    GetEnvironmentVariableW_cases.2.2 winState ⟨2, 0⟩ ⟨3, 0⟩ 5 [65] ⟨1, 0⟩
      [104, 101, 108, 108, 111] (by decide) (by decide) (by decide) (by decide)⟩

theorem readAll_payloads (m : Mem) :
    ∀ (l : List (EnvName × Ptr)), (∀ e ∈ l, payloadOk m e.1 e.2) →
    ∃ pieces, readAll m l = some pieces ∧
      List.Forall₂ (fun (e : EnvName × Ptr) (w : List Nat) => ∃ t, w = e.1 ++ 61 :: t)
        l pieces := by
  intro l
  induction l with
  | nil => exact fun _ => ⟨[], rfl, List.Forall₂.nil⟩
  | cons e rest ih =>
      intro hall
      obtain ⟨v, -, hv⟩ := payload_readStr (hall e (List.mem_cons_self _ _))
      obtain ⟨pieces, hp, hf⟩ := ih (fun x hx => hall x (List.mem_cons_of_mem _ hx))
      refine ⟨(e.1 ++ 61 :: v) :: pieces, ?_, List.Forall₂.cons ⟨v, rfl⟩ hf⟩
      simp [readAll, hv, hp]

/-- C3 (amended): `GetEnvironmentStringsW` returns a freshly allocated block
holding the concatenation of every payload's full `name=value` string (not
just the value portion), each terminated by a null unit, with one final
additional null unit; every such string begins with `name=`. -/
theorem GetEnvironmentStringsW_block :
    (∀ (s : EnvState) (pieces : List (List Nat)),
      readAll s.mem s.map = some pieces →
      ∃ s', GetEnvironmentStringsW s = .ok (⟨s.mem.next, 0⟩, s') ∧
        s'.map = s.map ∧ s'.lastError = s.lastError ∧
        s'.mem.lookup s.mem.next =
          some (.str ((pieces.foldl (fun acc w => acc ++ w ++ [0]) []) ++ [0])) ∧
        (MemWF s.mem → s.mem.lookup s.mem.next = none)) ∧
    (∀ s : EnvState, (∀ e ∈ s.map, payloadOk s.mem e.1 e.2) →
      ∃ pieces, readAll s.mem s.map = some pieces ∧
        List.Forall₂ (fun (e : EnvName × Ptr) (w : List Nat) => ∃ t, w = e.1 ++ 61 :: t)
          s.map pieces) := by
  constructor
  · intro s pieces h
    refine ⟨{ s with mem := ⟨(s.mem.next,
        .str ((pieces.foldl (fun acc w => acc ++ w ++ [0]) []) ++ [0])) :: s.mem.heap,
        s.mem.next + 1⟩ }, ?_, rfl, rfl, ?_, ?_⟩
    · simp [GetEnvironmentStringsW, h, Mem.alloc]
    · have hl : (s.mem.alloc (.str ((pieces.foldl (fun acc w => acc ++ w ++ [0]) []) ++ [0]))).2.lookup
          s.mem.next =
          if s.mem.next = s.mem.next then
            some (.str ((pieces.foldl (fun acc w => acc ++ w ++ [0]) []) ++ [0]))
          else s.mem.lookup s.mem.next :=
        Mem.lookup_alloc s.mem _ s.mem.next
      rw [if_pos rfl] at hl
      exact hl
    · intro wf
      exact Mem.lookup_next_none wf
  · intro s hp
    exact readAll_payloads s.mem s.map hp

/-- Windows state holding the single entry `A=1` (payload at allocation 1). -/
def win1 : EnvState :=
  ⟨⟨[(1, .str [65, 61, 49, 0])], 2⟩, [([65], ⟨1, 0⟩)], Ptr.null, none⟩

/-- The state after `GetEnvironmentStringsW` on `win1`: the block at
allocation 2 holds `A=1\0\0`, not the value-only `1\0\0`. -/
def win1' : EnvState :=
  ⟨⟨[(2, .str [65, 61, 49, 0, 0]), (1, .str [65, 61, 49, 0])], 3⟩,
   [([65], ⟨1, 0⟩)], Ptr.null, none⟩

/-- C3 counterexample: with the single entry `A=1`, the returned block
contains the full `A=1` payload followed by two null units, which differs
from the value-only block `1\0\0` the claim predicts. -/
theorem GetEnvironmentStringsW_value_only_false :
    GetEnvironmentStringsW win1 = .ok (⟨2, 0⟩, win1') ∧
    win1'.mem.lookup 2 = some (.str [65, 61, 49, 0, 0]) ∧
    [65, 61, 49, 0, 0] ≠ [49] ++ [0] ++ [0] :=
  ⟨by decide, by decide, by decide⟩

theorem GetEnvironmentStringsW_block_witness :
    (∃ s', GetEnvironmentStringsW win1 = .ok (⟨win1.mem.next, 0⟩, s') ∧
      s'.map = win1.map ∧ s'.lastError = win1.lastError ∧
      s'.mem.lookup win1.mem.next =
        some (.str ((([[65, 61, 49]] : List (List Nat)).foldl
          (fun acc w => acc ++ w ++ [0]) []) ++ [0])) ∧
      (MemWF win1.mem → win1.mem.lookup win1.mem.next = none)) ∧
    (∃ pieces, readAll win1.mem win1.map = some pieces ∧
      List.Forall₂ (fun (e : EnvName × Ptr) (w : List Nat) => ∃ t, w = e.1 ++ 61 :: t)
        win1.map pieces) :=
  ⟨GetEnvironmentStringsW_block.1 win1 [[65, 61, 49]] (by decide),
    GetEnvironmentStringsW_block.2 win1 (by
      intro e he
      have h := List.mem_singleton.mp he
      subst h
      exact ⟨rfl, by decide, by decide, by decide, [49], by decide, by decide⟩)⟩

/-- C7: `SetEnvironmentVariableW` halts with an undefined-behavior
diagnostic on a null name, halts with an unsupported-operation diagnostic on
an empty name or one containing the equals sign, deletes the entry
(releasing its payload) and returns TRUE on a null value — also when the
name was absent — and otherwise inserts a fresh wide payload, releasing any
replaced payload, and returns TRUE. -/
theorem SetEnvironmentVariableW_cases :
    (∀ (s : EnvState) (np vp : Ptr), np.isNull = true →
      SetEnvironmentVariableW s np vp = .error .ub) ∧
    (∀ (s : EnvState) (np vp : Ptr), np.isNull = false →
      s.mem.readStr np = some [] →
      SetEnvironmentVariableW s np vp = .error .unsup) ∧
    (∀ (s : EnvState) (np vp : Ptr) (n : EnvName), np.isNull = false →
      s.mem.readStr np = some n → 61 ∈ n →
      SetEnvironmentVariableW s np vp = .error .unsup) ∧
    (∀ (s : EnvState) (np vp : Ptr) (n : EnvName), WFW s → np.isNull = false →
      s.mem.readStr np = some n → n ≠ [] → 61 ∉ n → vp.isNull = true →
      ∃ s', SetEnvironmentVariableW s np vp = .ok (1, s') ∧
        envLookup s'.map n = none ∧
        (∀ old, envLookup s.map n = some old → s'.mem.lookup old.alloc = none) ∧
        (∀ k, k ≠ n → envLookup s'.map k = envLookup s.map k) ∧
        (envLookup s.map n = none → s' = s)) ∧
    (∀ (s : EnvState) (np vp : Ptr) (n v : EnvName), WFW s → np.isNull = false →
      s.mem.readStr np = some n → n ≠ [] → 61 ∉ n → vp.isNull = false →
      s.mem.readStr vp = some v →
      ∃ s', SetEnvironmentVariableW s np vp = .ok (1, s') ∧
        envLookup s'.map n = some ⟨s.mem.next, 0⟩ ∧
        s'.mem.lookup s.mem.next = some (.str (envPayload n v)) ∧
        (∀ old, envLookup s.map n = some old → s'.mem.lookup old.alloc = none) ∧
        (∀ k, k ≠ n → envLookup s'.map k = envLookup s.map k)) := by
  refine ⟨?_, ?_, ?_, ?_, ?_⟩
  · intro s np vp h
    simp [SetEnvironmentVariableW, h]
  · intro s np vp hnull hn
    simp [SetEnvironmentVariableW, hnull, hn]
  · intro s np vp n hnull hn h61
    by_cases hne : n = []
    · simp [SetEnvironmentVariableW, hnull, hn, hne]
    · simp [SetEnvironmentVariableW, hnull, hn, hne, h61]
  · intro s np vp n wfw hnull hn hne heq hvp
    cases hold : envLookup s.map n with
    | none =>
        refine ⟨{ s with map := (envRemove n s.map).1 }, ?_, ?_, ?_, ?_, ?_⟩
        · simp [SetEnvironmentVariableW, hnull, hn, hne, heq, hvp, envRemove_snd, hold]
        · show envLookup (envRemove n s.map).1 n = none
          rw [envLookup_envRemove wfw.mapWF.keysNodup, if_pos rfl]
        · intro old h
          cases h
        · intro k hk
          show envLookup (envRemove n s.map).1 k = envLookup s.map k
          rw [envLookup_envRemove wfw.mapWF.keysNodup, if_neg hk]
        · intro _
          show ({ s with map := (envRemove n s.map).1 } : EnvState) = s
          rw [envRemove_of_absent hold]
    | some old =>
        obtain ⟨holdoff0, -, -, -, w, hw, holdl0⟩ :=
          wfw.mapWF.payloads (n, old) (envLookup_mem hold)
        have holdoff : old.offset = 0 := holdoff0
        have holdl : s.mem.lookup old.alloc = some (.str (envPayload n w)) := holdl0
        have hde : s.mem.dealloc old =
            some (Mem.mk (removeId old.alloc s.mem.heap) s.mem.next) :=
          Mem.dealloc_some holdl holdoff
        have hm1look : ∀ i, (Mem.mk (removeId old.alloc s.mem.heap) s.mem.next).lookup i =
            if i = old.alloc then none else s.mem.lookup i :=
          lookup_after_removeId wfw.memWF _
        refine ⟨{ s with
            mem := Mem.mk (removeId old.alloc s.mem.heap) s.mem.next,
            map := (envRemove n s.map).1 }, ?_, ?_, ?_, ?_, ?_⟩
        · simp [SetEnvironmentVariableW, hnull, hn, hne, heq, hvp, envRemove_snd,
            hold, hde]
        · show envLookup (envRemove n s.map).1 n = none
          rw [envLookup_envRemove wfw.mapWF.keysNodup, if_pos rfl]
        · intro old2 h
          have h2 : old2 = old := (Option.some_injective _ h).symm
          rw [h2]
          show (Mem.mk (removeId old.alloc s.mem.heap) s.mem.next).lookup old.alloc = none
          rw [hm1look, if_pos rfl]
        · intro k hk
          show envLookup (envRemove n s.map).1 k = envLookup s.map k
          rw [envLookup_envRemove wfw.mapWF.keysNodup, if_neg hk]
        · intro habs
          cases habs
  · intro s np vp n v wfw hnull hn hne heq hvp hv
    have hmAwf : MemWF (Mem.mk ((s.mem.next, Alloc.str (envPayload n v)) :: s.mem.heap)
        (s.mem.next + 1)) := wfw.memWF.alloc (.str (envPayload n v))
    have hmAlook : ∀ i, (Mem.mk ((s.mem.next, Alloc.str (envPayload n v)) :: s.mem.heap)
          (s.mem.next + 1)).lookup i =
        if i = s.mem.next then some (.str (envPayload n v)) else s.mem.lookup i :=
      fun i => Mem.lookup_alloc s.mem (.str (envPayload n v)) i
    cases hold : envLookup s.map n with
    | none =>
        refine ⟨{ s with
            mem := Mem.mk ((s.mem.next, Alloc.str (envPayload n v)) :: s.mem.heap)
              (s.mem.next + 1),
            map := (envInsert n ⟨s.mem.next, 0⟩ s.map).1 }, ?_, ?_, ?_, ?_, ?_⟩
        · simp [SetEnvironmentVariableW, hnull, hn, hne, heq, hvp, hv,
            alloc_env_var_as_wide_str, Mem.alloc, envInsert_snd, hold]
        · show envLookup (envInsert n (⟨s.mem.next, 0⟩ : Ptr) s.map).1 n =
            some ⟨s.mem.next, 0⟩
          rw [envLookup_envInsert, if_pos rfl]
        · show (Mem.mk ((s.mem.next, Alloc.str (envPayload n v)) :: s.mem.heap)
              (s.mem.next + 1)).lookup s.mem.next = some (.str (envPayload n v))
          rw [hmAlook, if_pos rfl]
        · intro old h
          cases h
        · intro k hk
          show envLookup (envInsert n (⟨s.mem.next, 0⟩ : Ptr) s.map).1 k = envLookup s.map k
          rw [envLookup_envInsert, if_neg hk]
    | some old =>
        obtain ⟨holdoff0, -, -, -, w, hw, holdl0⟩ :=
          wfw.mapWF.payloads (n, old) (envLookup_mem hold)
        have holdoff : old.offset = 0 := holdoff0
        have holdl : s.mem.lookup old.alloc = some (.str (envPayload n w)) := holdl0
        have holdlt : old.alloc < s.mem.next := (Mem.lookup_bound wfw.memWF holdl).2
        have hmAold : (Mem.mk ((s.mem.next, Alloc.str (envPayload n v)) :: s.mem.heap)
            (s.mem.next + 1)).lookup old.alloc = some (.str (envPayload n w)) := by
          rw [hmAlook, if_neg (by omega)]
          exact holdl
        have hde : (Mem.mk ((s.mem.next, Alloc.str (envPayload n v)) :: s.mem.heap)
              (s.mem.next + 1)).dealloc old =
            some (Mem.mk (removeId old.alloc
              ((s.mem.next, Alloc.str (envPayload n v)) :: s.mem.heap)) (s.mem.next + 1)) :=
          Mem.dealloc_some hmAold holdoff
        have hm2look : ∀ i, (Mem.mk (removeId old.alloc
              ((s.mem.next, Alloc.str (envPayload n v)) :: s.mem.heap))
              (s.mem.next + 1)).lookup i =
            if i = old.alloc then none
            else (Mem.mk ((s.mem.next, Alloc.str (envPayload n v)) :: s.mem.heap)
              (s.mem.next + 1)).lookup i :=
          lookup_after_removeId hmAwf _
        refine ⟨{ s with
            mem := Mem.mk (removeId old.alloc
              ((s.mem.next, Alloc.str (envPayload n v)) :: s.mem.heap)) (s.mem.next + 1),
            map := (envInsert n ⟨s.mem.next, 0⟩ s.map).1 }, ?_, ?_, ?_, ?_, ?_⟩
        · simp [SetEnvironmentVariableW, hnull, hn, hne, heq, hvp, hv,
            alloc_env_var_as_wide_str, Mem.alloc, envInsert_snd, hold, hde]
        · show envLookup (envInsert n (⟨s.mem.next, 0⟩ : Ptr) s.map).1 n =
            some ⟨s.mem.next, 0⟩
          rw [envLookup_envInsert, if_pos rfl]
        · show (Mem.mk (removeId old.alloc
              ((s.mem.next, Alloc.str (envPayload n v)) :: s.mem.heap))
              (s.mem.next + 1)).lookup s.mem.next = some (.str (envPayload n v))
          rw [hm2look, if_neg (by omega), hmAlook, if_pos rfl]
        · intro old2 h
          have h2 : old2 = old := (Option.some_injective _ h).symm
          rw [h2]
          show (Mem.mk (removeId old.alloc
              ((s.mem.next, Alloc.str (envPayload n v)) :: s.mem.heap))
              (s.mem.next + 1)).lookup old.alloc = none
          rw [hm2look, if_pos rfl]
        · intro k hk
          show envLookup (envInsert n (⟨s.mem.next, 0⟩ : Ptr) s.map).1 k = envLookup s.map k
          rw [envLookup_envInsert, if_neg hk]

theorem winState_wfw : WFW winState := by
  refine ⟨⟨by decide, by decide, by decide⟩, ⟨by decide, by decide, ?_⟩⟩
  intro e he
  have h := List.mem_singleton.mp he
  subst h
  exact ⟨rfl, by decide, by decide, by decide, [104, 101, 108, 108, 111],
    by decide, by decide⟩

theorem SetEnvironmentVariableW_cases_witness :
    SetEnvironmentVariableW winState Ptr.null ⟨2, 0⟩ = .error .ub ∧
    SetEnvironmentVariableW winState ⟨3, 0⟩ ⟨2, 0⟩ = .error .unsup ∧
    SetEnvironmentVariableW winState ⟨1, 0⟩ ⟨2, 0⟩ = .error .unsup ∧
    (∃ s', SetEnvironmentVariableW winState ⟨2, 0⟩ Ptr.null = .ok (1, s') ∧
      envLookup s'.map [65] = none ∧
      (∀ old, envLookup winState.map [65] = some old →
        s'.mem.lookup old.alloc = none) ∧
      (∀ k, k ≠ [65] → envLookup s'.map k = envLookup winState.map k) ∧
      (envLookup winState.map [65] = none → s' = winState)) ∧
    (∃ s', SetEnvironmentVariableW winState ⟨4, 0⟩ ⟨2, 0⟩ = .ok (1, s') ∧
      envLookup s'.map [66] = some ⟨winState.mem.next, 0⟩ ∧
      s'.mem.lookup winState.mem.next = some (.str (envPayload [66] [65])) ∧
      (∀ old, envLookup winState.map [66] = some old →
        s'.mem.lookup old.alloc = none) ∧
      (∀ k, k ≠ [66] → envLookup s'.map k = envLookup winState.map k)) :=
  ⟨SetEnvironmentVariableW_cases.1 winState Ptr.null ⟨2, 0⟩ (by decide),
    SetEnvironmentVariableW_cases.2.1 winState ⟨3, 0⟩ ⟨2, 0⟩ (by decide) (by decide),
    SetEnvironmentVariableW_cases.2.2.1 winState ⟨1, 0⟩ ⟨2, 0⟩ [65, 61, 104, 101, 108, 108, 111]
      (by decide) (by decide) (by decide),
    SetEnvironmentVariableW_cases.2.2.2.1 winState ⟨2, 0⟩ Ptr.null [65] winState_wfw
      (by decide) (by decide) (by decide) (by decide) (by decide),
    SetEnvironmentVariableW_cases.2.2.2.2 winState ⟨4, 0⟩ ⟨2, 0⟩ [66] [65] winState_wfw
      (by decide) (by decide) (by decide) (by decide) (by decide) (by decide)⟩

/-! ### Stable-hash derivation (`rustc_macros/src/hash_stable.rs`) -/

/-- A nested item inside an attribute: the recognized bare key `ignore`, a
`project(...)` list holding the selector identifiers, or an unrecognized
key. -/
inductive NestedItem where
  | ignore : NestedItem
  | project : List String → NestedItem
  | other : String → NestedItem
deriving DecidableEq

/-- An attribute on a field: a `stable_hasher(...)` attribute with its
nested items, or any other attribute (skipped by the parser). -/
inductive FieldAttr where
  | stableHasher : List NestedItem → FieldAttr
  | otherAttr : FieldAttr
deriving DecidableEq

/-- The per-field directives accumulated by `parse_attributes`. -/
structure Attributes where
  ignore : Bool
  project : Option String
deriving DecidableEq

/-- The inner `parse_nested_meta` closure of a `project(...)` item: each
selector captures the ident when none was captured yet and marks the
attribute recognized. -/
def projectFold (st : Attributes × Bool) (sels : List String) : Attributes × Bool :=
  sels.foldl (fun st2 sel =>
    ({ st2.1 with
        project := if st2.1.project.isNone then some sel else st2.1.project },
      true)) st

/-- One step of the `parse_nested_meta` closure: `ignore` sets the flag and
marks the attribute recognized; `project` runs the inner closure over its
selectors; unknown keys change nothing. -/
def parseNestedItem (st : Attributes × Bool) : NestedItem → Attributes × Bool
  | .ignore => ({ st.1 with ignore := true }, true)
  | .project sels => projectFold st sels
  | .other _ => st

/-- `parse_attributes`: walk the field attributes; for each `stable_hasher`
attribute fold its nested items with `any_attr` starting false, and panic
(modelled as an error) when no recognized key was seen in that attribute. -/
def parseAttrList (acc : Attributes) : List FieldAttr → Except Unit Attributes
  | [] => .ok acc
  | .otherAttr :: rest => parseAttrList acc rest
  | .stableHasher items :: rest =>
      let r := items.foldl parseNestedItem (acc, false)
      if r.2 then parseAttrList r.1 rest else .error ()

def parse_attributes (attrs : List FieldAttr) : Except Unit Attributes :=
  parseAttrList { ignore := false, project := none } attrs

/-- A runtime field value: an abstract hash for the field itself and the
hashes of its named projections. -/
structure FieldVal where
  selfHash : Nat
  projHash : List (String × Nat)
deriving DecidableEq

def FieldVal.proj (f : FieldVal) (sel : String) : Nat :=
  match f.projHash.find? (fun e => e.1 == sel) with
  | some e => e.2
  | none => 0

/-- The data one field contributes to the hash stream under its parsed
directive: nothing when ignored, the projection result under
`project(sel)`, the field itself otherwise. -/
def fieldHash (a : Attributes) (f : FieldVal) : List Nat :=
  if a.ignore then []
  else
    match a.project with
    | some sel => [f.proj sel]
    | none => [f.selfHash]

/-- The emitted body hashes the fields of the matching variant in
declaration order. -/
def fieldsHash : List Attributes → List FieldVal → List Nat
  | [], _ => []
  | _, [] => []
  | a :: ds, f :: fs => fieldHash a f ++ fieldsHash ds fs

/-- Parse the directives of every field of the variant, failing when any
field fails. -/
def parseFields : List (List FieldAttr) → Except Unit (List Attributes)
  | [] => .ok []
  | fa :: rest =>
      match parse_attributes fa, parseFields rest with
      | .ok a, .ok ds => .ok (a :: ds)
      | .error e, _ => .error e
      | _, .error e => .error e

/-- The hash stream the generated `hash_stable` of a sum type produces for a
value of one variant: `hash_stable_discriminant` mixes the discriminant tag
first, then `hash_stable_body` mixes each field contribution in declaration
order. -/
def hash_stable_sum (fieldAttrs : List (List FieldAttr)) (discr : Nat)
    (fields : List FieldVal) : Except Unit (List Nat) :=
  match parseFields fieldAttrs with
  | .error e => .error e
  | .ok dirs => .ok (discr :: fieldsHash dirs fields)

theorem fieldsHash_set (dirs : List Attributes) (fs : List FieldVal) (i : Nat)
    (a b : FieldVal)
    (h : ∀ dir, dirs.get? i = some dir → fieldHash dir a = fieldHash dir b) :
    fieldsHash dirs (fs.set i a) = fieldsHash dirs (fs.set i b) := by
  induction dirs generalizing fs i with
  | nil => simp [fieldsHash]
  | cons dir rest ih =>
      cases fs with
      | nil => simp [List.set]
      | cons f fs2 =>
          cases i with
          | zero =>
              simp only [List.set, fieldsHash]
              rw [h dir rfl]
          | succ j =>
              simp only [List.set, fieldsHash]
              rw [ih fs2 j (fun dir2 h2 => h dir2 h2)]

/-- C8: for a sum type the generated body mixes the discriminant before any
field and then each field contribution in declaration order; an ignored
field contributes nothing, so two values differing only in an ignored field
hash identically; a projected field contributes only the selector result, so
two values agreeing on the selector result hash identically. -/
theorem hash_stable_sum_properties :
    (∀ (fa : List (List FieldAttr)) (d : Nat) (fs : List FieldVal)
      (dirs : List Attributes), parseFields fa = .ok dirs →
      hash_stable_sum fa d fs = .ok (d :: fieldsHash dirs fs)) ∧
    (∀ (fa : List (List FieldAttr)) (d : Nat) (fs : List FieldVal)
      (dirs : List Attributes) (i : Nat) (dir : Attributes) (a b : FieldVal),
      parseFields fa = .ok dirs → dirs.get? i = some dir → dir.ignore = true →
      hash_stable_sum fa d (fs.set i a) = hash_stable_sum fa d (fs.set i b)) ∧
    (∀ (fa : List (List FieldAttr)) (d : Nat) (fs : List FieldVal)
      (dirs : List Attributes) (i : Nat) (dir : Attributes) (sel : String)
      (a b : FieldVal),
      parseFields fa = .ok dirs → dirs.get? i = some dir → dir.ignore = false →
      dir.project = some sel → a.proj sel = b.proj sel →
      hash_stable_sum fa d (fs.set i a) = hash_stable_sum fa d (fs.set i b)) := by
  refine ⟨?_, ?_, ?_⟩
  · intro fa d fs dirs h
    simp [hash_stable_sum, h]
  · intro fa d fs dirs i dir a b h hdir hig
    simp only [hash_stable_sum, h]
    rw [fieldsHash_set dirs fs i a b]
    intro dir2 h2
    rw [hdir] at h2
    have : dir2 = dir := (Option.some_injective _ h2).symm
    subst this
    simp [fieldHash, hig]
  · intro fa d fs dirs i dir sel a b h hdir hig hproj hval
    simp only [hash_stable_sum, h]
    rw [fieldsHash_set dirs fs i a b]
    intro dir2 h2
    rw [hdir] at h2
    have : dir2 = dir := (Option.some_injective _ h2).symm
    subst this
    simp [fieldHash, hig, hproj, hval]

theorem hash_stable_sum_properties_witness :
    hash_stable_sum [[], [.stableHasher [.ignore]], [.stableHasher [.project ["f"]]]] 7
        [⟨1, []⟩, ⟨2, []⟩, ⟨3, [("f", 9)]⟩] =
      .ok (7 :: fieldsHash
        [{ ignore := false, project := none }, { ignore := true, project := none },
         { ignore := false, project := some "f" }]
        [⟨1, []⟩, ⟨2, []⟩, ⟨3, [("f", 9)]⟩]) ∧
    hash_stable_sum [[], [.stableHasher [.ignore]], [.stableHasher [.project ["f"]]]] 7
        ([⟨1, []⟩, ⟨2, []⟩, ⟨3, [("f", 9)]⟩].set 1 ⟨5, []⟩) =
      hash_stable_sum [[], [.stableHasher [.ignore]], [.stableHasher [.project ["f"]]]] 7
        ([⟨1, []⟩, ⟨2, []⟩, ⟨3, [("f", 9)]⟩].set 1 ⟨6, []⟩) ∧
    hash_stable_sum [[], [.stableHasher [.ignore]], [.stableHasher [.project ["f"]]]] 7
        ([⟨1, []⟩, ⟨2, []⟩, ⟨3, [("f", 9)]⟩].set 2 ⟨4, [("f", 9)]⟩) =
      hash_stable_sum [[], [.stableHasher [.ignore]], [.stableHasher [.project ["f"]]]] 7
        ([⟨1, []⟩, ⟨2, []⟩, ⟨3, [("f", 9)]⟩].set 2 ⟨8, [("f", 9), ("g", 2)]⟩) :=
  ⟨hash_stable_sum_properties.1 _ 7 _ _ (by decide),
    hash_stable_sum_properties.2.1 _ 7 [⟨1, []⟩, ⟨2, []⟩, ⟨3, [("f", 9)]⟩]
      [{ ignore := false, project := none }, { ignore := true, project := none },
       { ignore := false, project := some "f" }] 1
      { ignore := true, project := none } ⟨5, []⟩ ⟨6, []⟩ (by decide) (by decide) rfl,
    hash_stable_sum_properties.2.2 _ 7 [⟨1, []⟩, ⟨2, []⟩, ⟨3, [("f", 9)]⟩]
      [{ ignore := false, project := none }, { ignore := true, project := none },
       { ignore := false, project := some "f" }] 2
      { ignore := false, project := some "f" } "f" ⟨4, [("f", 9)]⟩
      ⟨8, [("f", 9), ("g", 2)]⟩ (by decide) (by decide) rfl rfl (by decide)⟩

/-- Whether an attribute contains a recognized key: an `ignore`, or a
`project` with at least one selector. -/
def recognizedB (items : List NestedItem) : Bool :=
  items.any (fun it =>
    match it with
    | .ignore => true
    | .project sels => !sels.isEmpty
    | .other _ => false)

theorem project_fold_snd (sels : List String) :
    ∀ st : Attributes × Bool,
    (projectFold st sels).2 = (st.2 || !sels.isEmpty) := by
  induction sels with
  | nil => intro st; simp [projectFold]
  | cons sel rest ih =>
      intro st
      simp only [projectFold, List.foldl_cons] at ih ⊢
      rw [ih]
      simp

theorem parseNestedItem_fold_snd (items : List NestedItem) :
    ∀ (acc : Attributes) (b : Bool),
    (items.foldl parseNestedItem (acc, b)).2 = (b || recognizedB items) := by
  induction items with
  | nil => intro acc b; simp [recognizedB]
  | cons it rest ih =>
      intro acc b
      cases it with
      | ignore =>
          simp only [List.foldl_cons, parseNestedItem, ih, recognizedB, List.any_cons]
          simp
      | project sels =>
          simp only [List.foldl_cons, parseNestedItem]
          have h2 : (List.foldl parseNestedItem (projectFold (acc, b) sels) rest).2 =
              ((projectFold (acc, b) sels).2 || recognizedB rest) :=
            ih (projectFold (acc, b) sels).1 (projectFold (acc, b) sels).2
          rw [h2, project_fold_snd]
          simp [recognizedB, List.any_cons, Bool.or_assoc]
      | other name =>
          simp only [List.foldl_cons, parseNestedItem, ih, recognizedB, List.any_cons]
          simp

theorem parseAttrList_error_iff (attrs : List FieldAttr) :
    ∀ acc : Attributes,
    (parseAttrList acc attrs = .error ()) ↔
      ∃ items, FieldAttr.stableHasher items ∈ attrs ∧ recognizedB items = false := by
  induction attrs with
  | nil =>
      intro acc
      simp [parseAttrList]
  | cons attr rest ih =>
      intro acc
      cases attr with
      | otherAttr =>
          simp only [parseAttrList, ih]
          constructor
          · rintro ⟨items, hmem, hrec⟩
            exact ⟨items, List.mem_cons_of_mem _ hmem, hrec⟩
          · rintro ⟨items, hmem, hrec⟩
            rcases List.mem_cons.mp hmem with h | h
            · cases h
            · exact ⟨items, h, hrec⟩
      | stableHasher items =>
          simp only [parseAttrList]
          have hsnd := parseNestedItem_fold_snd items acc false
          rw [Bool.false_or] at hsnd
          cases hrec : recognizedB items with
          | false =>
              rw [hrec] at hsnd
              rw [hsnd]
              simp only [Bool.false_eq_true, if_false]
              constructor
              · intro _
                exact ⟨items, List.mem_cons_self _ _, hrec⟩
              · intro _
                trivial
          | true =>
              rw [hrec] at hsnd
              rw [hsnd]
              simp only [if_true]
              rw [ih]
              constructor
              · rintro ⟨items2, hmem, hrec2⟩
                exact ⟨items2, List.mem_cons_of_mem _ hmem, hrec2⟩
              · rintro ⟨items2, hmem, hrec2⟩
                rcases List.mem_cons.mp hmem with h | h
                · exfalso
                  have : items2 = items := by
                    injection h
                  subst this
                  rw [hrec] at hrec2
                  cases hrec2
                · exact ⟨items2, h, hrec2⟩

/-- C9 counterexample: a `stable_hasher` attribute containing the unknown
key `foo` next to the recognized `ignore` parses without any error, so an
unrecognized key does not by itself cause a hard error. -/
theorem parse_attributes_unknown_key_accepted :
    parse_attributes [.stableHasher [.ignore, .other "foo"]] =
      .ok { ignore := true, project := none } ∧
    NestedItem.other "foo" ∈ [NestedItem.ignore, NestedItem.other "foo"] ∧
    NestedItem.other "foo" ≠ NestedItem.ignore ∧
    NestedItem.other "foo" ≠ NestedItem.project ["foo"] :=
  ⟨by decide, by decide, by decide, by decide⟩

/-- C9 (amended): the directive parser raises a hard generation-time error
for a `stable_hasher` attribute exactly when the attribute contains no
recognized key — no `ignore` item and no `project` item with at least one
selector; unknown keys alongside a recognized key are silently ignored. -/
theorem parse_attributes_error_iff :
    ∀ attrs : List FieldAttr,
      parse_attributes attrs = .error () ↔
      ∃ items, FieldAttr.stableHasher items ∈ attrs ∧ recognizedB items = false :=
  fun attrs => parseAttrList_error_iff attrs { ignore := false, project := none }

theorem parse_attributes_error_iff_witness :
    parse_attributes [.stableHasher [.other "foo"]] = .error () :=
  (parse_attributes_error_iff [.stableHasher [.other "foo"]]).mpr
    ⟨[.other "foo"], by decide, by decide⟩
